import Mathlib

/-!
Verification of the metric-store / domain excerpt of `great_expectations`
(`data_context/store/metric_store.py` and `rule_based_profiler/types/domain.py`)
against its natural-language specification.

Python values that can appear in configurations, metric payloads and domain
fields are shallowly embedded as `PyVal`.  Python dictionaries are modelled as
insertion-ordered association lists with (for well-formed values) no duplicate
keys; Python's order-insensitive `dict.__eq__` is modelled by comparing
recursively key-sorted canonical forms (`canon`).
-/

/-- The metric domain type enumeration (`MetricDomainTypes`).
Modelled from the spec: the enumeration itself lives in
`great_expectations/execution_engine/execution_engine.py`, outside this
excerpt; the spec lists "a fixed enumeration of metric domain kinds (e.g.,
table, column, column-pair, multicolumn)", with uppercase member names and
lowercase string values in the house style of `SemanticDomainTypes`. -/
inductive MetricDomainTypes where
  | TABLE
  | COLUMN
  | COLUMN_PAIR
  | MULTICOLUMN
deriving DecidableEq

/-- The string value of a `MetricDomainTypes` member (Python `member.value`). -/
def MetricDomainTypes.value : MetricDomainTypes → String
  | .TABLE => "table"
  | .COLUMN => "column"
  | .COLUMN_PAIR => "column_pair"
  | .MULTICOLUMN => "multicolumn"

/-- Python's by-value enum lookup `MetricDomainTypes(s)`: returns the member
whose `value` equals `s`, if any.  (The Python call raises `ValueError` when
there is no match; callers model that with `Option`/`Except`.) -/
def MetricDomainTypes.fromValue (s : String) : Option MetricDomainTypes :=
  if s = "table" then some .TABLE
  else if s = "column" then some .COLUMN
  else if s = "column_pair" then some .COLUMN_PAIR
  else if s = "multicolumn" then some .MULTICOLUMN
  else none

/-- `SemanticDomainTypes` from `rule_based_profiler/types/domain.py`. -/
inductive SemanticDomainTypes where
  | NUMERIC
  | TEXT
  | LOGIC
  | DATETIME
  | BINARY
  | CURRENCY
  | IDENTIFIER
  | MISCELLANEOUS
  | UNKNOWN
deriving DecidableEq

/-- The string value of a `SemanticDomainTypes` member. -/
def SemanticDomainTypes.value : SemanticDomainTypes → String
  | .NUMERIC => "numeric"
  | .TEXT => "text"
  | .LOGIC => "logic"
  | .DATETIME => "datetime"
  | .BINARY => "binary"
  | .CURRENCY => "currency"
  | .IDENTIFIER => "identifier"
  | .MISCELLANEOUS => "miscellaneous"
  | .UNKNOWN => "unknown"

/-- Python's by-value enum lookup `SemanticDomainTypes(s)`. -/
def SemanticDomainTypes.fromValue (s : String) : Option SemanticDomainTypes :=
  if s = "numeric" then some .NUMERIC
  else if s = "text" then some .TEXT
  else if s = "logic" then some .LOGIC
  else if s = "datetime" then some .DATETIME
  else if s = "binary" then some .BINARY
  else if s = "currency" then some .CURRENCY
  else if s = "identifier" then some .IDENTIFIER
  else if s = "miscellaneous" then some .MISCELLANEOUS
  else if s = "unknown" then some .UNKNOWN
  else none

/-- Shallow embedding of the Python values this excerpt manipulates.
`none_v`/`bool`/`int`/`str` are the JSON scalars; `list` and `dict` the JSON
containers (a `dict` is an insertion-ordered association list); `enumMetric`
and `enumSemantic` are enum instances; `handle` stands for an arbitrary
non-JSON-serializable object (e.g. a raw binary handle). -/
inductive PyVal where
  | none_v
  | bool (b : Bool)
  | int (n : Int)
  | str (s : String)
  | list (xs : List PyVal)
  | dict (kvs : List (String × PyVal))
  | enumMetric (t : MetricDomainTypes)
  | enumSemantic (t : SemanticDomainTypes)
  | handle (name : String)

mutual

/-- Structural boolean equality on `PyVal` (`deriving` cannot handle the
nested lists, so it is spelled out). -/
def PyVal.beq : PyVal → PyVal → Bool
  | .none_v, .none_v => true
  | .bool a, .bool b => a == b
  | .int a, .int b => a == b
  | .str a, .str b => a == b
  | .list xs, .list ys => PyVal.beqList xs ys
  | .dict xs, .dict ys => PyVal.beqEntries xs ys
  | .enumMetric a, .enumMetric b => a == b
  | .enumSemantic a, .enumSemantic b => a == b
  | .handle a, .handle b => a == b
  | _, _ => false

def PyVal.beqList : List PyVal → List PyVal → Bool
  | [], [] => true
  | x :: xs, y :: ys => PyVal.beq x y && PyVal.beqList xs ys
  | _, _ => false

def PyVal.beqEntries : List (String × PyVal) → List (String × PyVal) → Bool
  | [], [] => true
  | kv :: xs, kw :: ys =>
    kv.1 == kw.1 && PyVal.beq kv.2 kw.2 && PyVal.beqEntries xs ys
  | _, _ => false

end

instance : BEq PyVal := ⟨PyVal.beq⟩

/-- Structural induction principle for `PyVal` with membership hypotheses for
the nested lists. -/
theorem PyVal.inductionOn {P : PyVal → Prop}
    (h0 : P .none_v) (hb : ∀ b, P (.bool b)) (hi : ∀ n, P (.int n))
    (hs : ∀ s, P (.str s))
    (hm : ∀ t, P (.enumMetric t)) (hsem : ∀ t, P (.enumSemantic t))
    (hh : ∀ s, P (.handle s))
    (hl : ∀ xs, (∀ x ∈ xs, P x) → P (.list xs))
    (hd : ∀ kvs, (∀ kv ∈ kvs, P kv.2) → P (.dict kvs)) :
    ∀ v, P v
  | .none_v => h0
  | .bool b => hb b
  | .int n => hi n
  | .str s => hs s
  | .enumMetric t => hm t
  | .enumSemantic t => hsem t
  | .handle s => hh s
  | .list xs =>
    hl xs (fun x hx =>
      PyVal.inductionOn h0 hb hi hs hm hsem hh hl hd x)
  | .dict kvs =>
    hd kvs (fun kv hkv =>
      PyVal.inductionOn h0 hb hi hs hm hsem hh hl hd kv.2)
termination_by v => sizeOf v
decreasing_by
  · have := List.sizeOf_lt_of_mem hx
    simp only [PyVal.list.sizeOf_spec]
    omega
  · have h1 := List.sizeOf_lt_of_mem hkv
    obtain ⟨k, v⟩ := kv
    simp only [PyVal.dict.sizeOf_spec]
    simp only [Prod.mk.sizeOf_spec] at h1
    omega

theorem PyVal.beqList_iff
    (xs : List PyVal) (ih : ∀ x ∈ xs, ∀ b, PyVal.beq x b = true ↔ x = b) :
    ∀ ys, PyVal.beqList xs ys = true ↔ xs = ys := by
  induction xs with
  | nil => intro ys; cases ys <;> simp [PyVal.beqList]
  | cons x xs ihx =>
    intro ys
    cases ys with
    | nil => simp [PyVal.beqList]
    | cons y ys =>
      simp only [PyVal.beqList, Bool.and_eq_true]
      rw [ih x (by simp), ihx (fun a ha b => ih a (by simp [ha]) b)]
      simp

theorem PyVal.beqEntries_iff
    (xs : List (String × PyVal))
    (ih : ∀ kv ∈ xs, ∀ b, PyVal.beq kv.2 b = true ↔ kv.2 = b) :
    ∀ ys, PyVal.beqEntries xs ys = true ↔ xs = ys := by
  induction xs with
  | nil => intro ys; cases ys <;> simp [PyVal.beqEntries]
  | cons x xs ihx =>
    intro ys
    cases ys with
    | nil => simp [PyVal.beqEntries]
    | cons y ys =>
      simp only [PyVal.beqEntries, Bool.and_eq_true]
      rw [ih x (by simp), ihx (fun a ha b => ih a (by simp [ha]) b)]
      obtain ⟨k, v⟩ := x
      obtain ⟨k', v'⟩ := y
      simp only [beq_iff_eq]
      constructor
      · rintro ⟨⟨h1, h2⟩, h3⟩; simp_all
      · rintro h; injection h with h1 h2; simp_all

theorem PyVal.beq_iff : ∀ a b : PyVal, PyVal.beq a b = true ↔ a = b := by
  intro a
  induction a using PyVal.inductionOn with
  | h0 => intro b; cases b <;> simp [PyVal.beq]
  | hb x => intro b; cases b <;> simp [PyVal.beq]
  | hi x => intro b; cases b <;> simp [PyVal.beq]
  | hs x => intro b; cases b <;> simp [PyVal.beq]
  | hm x => intro b; cases b <;> simp [PyVal.beq]
  | hsem x => intro b; cases b <;> simp [PyVal.beq]
  | hh x => intro b; cases b <;> simp [PyVal.beq]
  | hl xs ih =>
    intro b
    cases b <;> simp [PyVal.beq]
    exact PyVal.beqList_iff xs ih _
  | hd kvs ih =>
    intro b
    cases b <;> simp [PyVal.beq]
    exact PyVal.beqEntries_iff kvs ih _

instance : DecidableEq PyVal := fun a b =>
  decidable_of_iff (PyVal.beq a b = true) (PyVal.beq_iff a b)

instance : LawfulBEq PyVal where
  eq_of_beq h := (PyVal.beq_iff _ _).1 h
  rfl := fun {a} => (PyVal.beq_iff a a).2 rfl

/-- Python truthiness on embedded values (`bool(v)`). -/
def truthy : PyVal → Bool
  | .none_v => false
  | .bool b => b
  | .int n => n != 0
  | .str s => s != ""
  | .list xs => !xs.isEmpty
  | .dict kvs => !kvs.isEmpty
  | .enumMetric _ => true
  | .enumSemantic _ => true
  | .handle _ => true

/-- First-match association-list lookup, Python `d[k]` / `d.get(k)` on a
well-formed (duplicate-free) dict. -/
def pyLookup (kvs : List (String × PyVal)) (k : String) : Option PyVal :=
  match kvs with
  | [] => none
  | kv :: rest => if kv.1 = k then some kv.2 else pyLookup rest k

/-- Python `k in d`. -/
def pyHasKey (kvs : List (String × PyVal)) (k : String) : Bool :=
  (pyLookup kvs k).isSome

/-- Python `d[k] = v`: update the existing binding in place, else append. -/
def pySet (kvs : List (String × PyVal)) (k : String) (v : PyVal) :
    List (String × PyVal) :=
  match kvs with
  | [] => [(k, v)]
  | kv :: rest => if kv.1 = k then (k, v) :: rest else kv :: pySet rest k v

/-- Boolean string comparison (`a ≤ b`), kept kernel-computable (the
library's `String.decidableLE` goes through byte iterators, which the kernel
cannot evaluate). -/
def strLeB (a b : String) : Bool := !decide (b.data < a.data)

theorem strLeB_iff (a b : String) : strLeB a b = true ↔ a ≤ b := by
  unfold strLeB
  rw [Bool.not_eq_true', decide_eq_false_iff_not]
  show ¬ b.data < a.data ↔ ¬ b < a
  exact not_congr (Iff.symm String.lt_iff_toList_lt)

/-- Insert a key-value pair into a list sorted by key (stable: an equal key
goes in front of nothing smaller). -/
def insertSorted (x : String × PyVal) :
    List (String × PyVal) → List (String × PyVal)
  | [] => [x]
  | y :: ys => if strLeB x.1 y.1 then x :: y :: ys else y :: insertSorted x ys

/-- Sort an association list by key (insertion sort; models the
`sort_keys=True` canonical key ordering of the id digest). -/
def sortByKey : List (String × PyVal) → List (String × PyVal)
  | [] => []
  | x :: xs => insertSorted x (sortByKey xs)

mutual

/-- Recursively key-sort every dictionary in a value.  Two well-formed values
have equal `canon` forms exactly when they are equal as Python values
(`==`, which ignores dict insertion order). -/
def canon : PyVal → PyVal
  | .list xs => .list (canonList xs)
  | .dict kvs => .dict (sortByKey (canonEntries kvs))
  | v => v

def canonList : List PyVal → List PyVal
  | [] => []
  | x :: xs => canon x :: canonList xs

def canonEntries : List (String × PyVal) → List (String × PyVal)
  | [] => []
  | kv :: rest => (kv.1, canon kv.2) :: canonEntries rest

end

/-- Python `==` on embedded values: structural equality up to dictionary
insertion order at every nesting level. -/
def pyEq (a b : PyVal) : Bool := canon a == canon b

mutual

/-- `great_expectations.util.deep_filter_properties_iterable` with
`clean_falsy=True`.  Modelled from the spec: the utility lives outside this
excerpt; the spec describes "a generic recursive tree-cleaning function
operating on a sum type of scalar, sequence, mapping, returning a new tree
with empty/null branches removed". -/
def deepFilter : PyVal → PyVal
  | .list xs => .list (deepFilterList xs)
  | .dict kvs => .dict (deepFilterEntries kvs)
  | v => v

def deepFilterList : List PyVal → List PyVal
  | [] => []
  | x :: xs =>
    let x' := deepFilter x
    let rest := deepFilterList xs
    if truthy x' then x' :: rest else rest

def deepFilterEntries : List (String × PyVal) → List (String × PyVal)
  | [] => []
  | kv :: rest =>
    let v' := deepFilter kv.2
    let rest' := deepFilterEntries rest
    if truthy v' then (kv.1, v') :: rest' else rest'

end

/-- `great_expectations.util.filter_properties_dict` with `clean_falsy=True`.
Modelled from the spec: the utility lives outside this excerpt; the spec
describes it as stripping falsy (empty/null) top-level entries and returning
the filtered copy. -/
def filter_properties_dict (kvs : List (String × PyVal)) :
    List (String × PyVal) :=
  kvs.filter (fun kv => truthy kv.2)

/-- `filter_properties_dict` lifted to a value: filters a dict's top-level
entries and leaves any other value unchanged. -/
def filterFalsyTop : PyVal → PyVal
  | .dict kvs => .dict (filter_properties_dict kvs)
  | v => v

mutual

/-- `great_expectations.core.util.convert_to_json_serializable`.
Modelled from the spec: the converter lives outside this excerpt; the spec
describes "a generic JSON-serializability converter" / "deep
JSON-serializability check".  It is the identity on JSON trees and fails on a
non-JSON leaf (an enum instance or an opaque object). -/
def convert_to_json_serializable : PyVal → Except String PyVal
  | .none_v => .ok .none_v
  | .bool b => .ok (.bool b)
  | .int n => .ok (.int n)
  | .str s => .ok (.str s)
  | .list xs =>
    match convertList xs with
    | .ok xs' => .ok (.list xs')
    | .error e => .error e
  | .dict kvs =>
    match convertEntries kvs with
    | .ok kvs' => .ok (.dict kvs')
    | .error e => .error e
  | .enumMetric _ => .error "TypeError: not JSON serializable"
  | .enumSemantic _ => .error "TypeError: not JSON serializable"
  | .handle _ => .error "TypeError: not JSON serializable"

def convertList : List PyVal → Except String (List PyVal)
  | [] => .ok []
  | x :: xs =>
    match convert_to_json_serializable x with
    | .error e => .error e
    | .ok x' =>
      match convertList xs with
      | .error e => .error e
      | .ok xs' => .ok (x' :: xs')

def convertEntries :
    List (String × PyVal) → Except String (List (String × PyVal))
  | [] => .ok []
  | kv :: rest =>
    match convert_to_json_serializable kv.2 with
    | .error e => .error e
    | .ok v' =>
      match convertEntries rest with
      | .error e => .error e
      | .ok rest' => .ok ((kv.1, v') :: rest')

end

mutual

/-- A canonical JSON rendering of a value (models `json.dumps`; string
escaping is irrelevant here because no claim parses the output back). -/
def dumps : PyVal → String
  | .none_v => "null"
  | .bool true => "true"
  | .bool false => "false"
  | .int n => toString n
  | .str s => "\"" ++ s ++ "\""
  | .list xs => "[" ++ dumpsList xs ++ "]"
  | .dict kvs => "\x7b" ++ dumpsEntries kvs ++ "\x7d"
  | .enumMetric t => "MetricDomainTypes." ++ t.value
  | .enumSemantic t => "SemanticDomainTypes." ++ t.value
  | .handle s => "handle:" ++ s

def dumpsList : List PyVal → String
  | [] => ""
  | [x] => dumps x
  | x :: xs => dumps x ++ ", " ++ dumpsList xs

def dumpsEntries : List (String × PyVal) → String
  | [] => ""
  | [kv] => "\"" ++ kv.1 ++ "\": " ++ dumps kv.2
  | kv :: rest => "\"" ++ kv.1 ++ "\": " ++ dumps kv.2 ++ ", " ++ dumpsEntries rest

end

/-- `IDDict(d).to_id()`.  Modelled from the spec: `IDDict` lives outside this
excerpt; the spec describes the id as a digest of the canonical JSON string,
computed as "canonicalize (stable key ordering), serialize, hash".  The
digest of the canonical string is modelled by the canonical string itself
(equal canonical content gives equal ids, which is all any claim uses). -/
def IDDict.to_id (d : PyVal) : String := dumps (canon d)

mutual

/-- Recursive well-formedness of an embedded Python value: every dictionary
in it has duplicate-free keys (true of every real Python `dict`). -/
def wf : PyVal → Bool
  | .list xs => wfList xs
  | .dict kvs => decide ((kvs.map Prod.fst).Nodup) && wfEntries kvs
  | _ => true

def wfList : List PyVal → Bool
  | [] => true
  | x :: xs => wf x && wfList xs

def wfEntries : List (String × PyVal) → Bool
  | [] => true
  | kv :: rest => wf kv.2 && wfEntries rest

end

theorem deepFilter_sizeOf_le : ∀ v : PyVal, sizeOf (deepFilter v) ≤ sizeOf v := by
  intro v
  induction v using PyVal.inductionOn with
  | h0 => simp [deepFilter]
  | hb b => simp [deepFilter]
  | hi n => simp [deepFilter]
  | hs s => simp [deepFilter]
  | hm t => simp [deepFilter]
  | hsem t => simp [deepFilter]
  | hh s => simp [deepFilter]
  | hl xs ih =>
    suffices h : sizeOf (deepFilterList xs) ≤ sizeOf xs by
      simp only [deepFilter, PyVal.list.sizeOf_spec]; omega
    induction xs with
    | nil => simp [deepFilterList]
    | cons x xs ihx =>
      have hx := ih x (by simp)
      have hrest := ihx (fun a ha => ih a (by simp [ha]))
      simp only [deepFilterList, List.cons.sizeOf_spec]
      split
      · simp only [List.cons.sizeOf_spec]; omega
      · omega
  | hd kvs ih =>
    suffices h : sizeOf (deepFilterEntries kvs) ≤ sizeOf kvs by
      simp only [deepFilter, PyVal.dict.sizeOf_spec]; omega
    induction kvs with
    | nil => simp [deepFilterEntries]
    | cons kv rest ihx =>
      have hx := ih kv (by simp)
      have hrest := ihx (fun a ha => ih a (by simp [ha]))
      obtain ⟨k, v⟩ := kv
      simp only [deepFilterEntries, List.cons.sizeOf_spec, Prod.mk.sizeOf_spec] at *
      split
      · simp only [List.cons.sizeOf_spec, Prod.mk.sizeOf_spec]; omega
      · omega

theorem deepFilterEntries_sizeOf_le (kvs : List (String × PyVal)) :
    sizeOf (deepFilterEntries kvs) ≤ sizeOf kvs := by
  induction kvs with
  | nil => simp [deepFilterEntries]
  | cons kv rest ihx =>
    have hx := deepFilter_sizeOf_le kv.2
    obtain ⟨k, v⟩ := kv
    simp only [deepFilterEntries, List.cons.sizeOf_spec, Prod.mk.sizeOf_spec] at *
    split
    · simp only [List.cons.sizeOf_spec, Prod.mk.sizeOf_spec]; omega
    · omega

mutual

/-- `Domain._convert_dictionaries_to_domain_kwargs`: `None` is returned as
is; a (non-`Domain`) mapping is deep-cleaned in place, wrapped as
`DomainKwargs` (the wrapper is invisible at the value level) and each of its
entries converted recursively; any other value is returned unchanged. -/
def convertDomainKwargs : PyVal → PyVal
  | .none_v => .none_v
  | .dict kvs => .dict (convertKwEntries (deepFilterEntries kvs))
  | v => v
termination_by v => sizeOf v
decreasing_by
  have := deepFilterEntries_sizeOf_le kvs
  simp only [PyVal.dict.sizeOf_spec]
  omega

def convertKwEntries : List (String × PyVal) → List (String × PyVal)
  | [] => []
  | kv :: rest => (kv.1, convertDomainKwargs kv.2) :: convertKwEntries rest
termination_by kvs => sizeOf kvs
decreasing_by
  · obtain ⟨k, v⟩ := kv
    simp only [List.cons.sizeOf_spec, Prod.mk.sizeOf_spec]
    omega
  · simp only [List.cons.sizeOf_spec]
    omega

end

/-- The reserved details key (`INFERRED_SEMANTIC_TYPE_KEY`). -/
def INFERRED_SEMANTIC_TYPE_KEY : String := "inferred_semantic_domain_type"

/-- `str(type(v))` for an embedded value. -/
def pyTypeName : PyVal → String
  | .none_v => "<class 'NoneType'>"
  | .bool _ => "<class 'bool'>"
  | .int _ => "<class 'int'>"
  | .str _ => "<class 'str'>"
  | .list _ => "<class 'list'>"
  | .dict _ => "<class 'dict'>"
  | .enumMetric _ => "<enum 'MetricDomainTypes'>"
  | .enumSemantic _ => "<enum 'SemanticDomainTypes'>"
  | .handle _ => "<class 'object'>"

/-- `str(v)` for an embedded value (only used inside error messages). -/
def pyStr : PyVal → String
  | .str s => s
  | v => dumps v

/-- The error raised when `Domain.__init__` rejects `domain_type`, recording
exactly the data interpolated into the raised message.
`enumValueError` is the `ValueError` that Python's by-value enum lookup
`MetricDomainTypes(domain_type)` raises on an unknown string: it names the
offending value only.  `unsupportedType` is the explicit
`raise ValueError(...)` of `Domain.__init__`, which names the offending value
and its type. -/
inductive DomainInitError where
  | enumValueError (offending : String)
  | unsupportedType (offending : String) (typeName : String)
deriving DecidableEq

/-- The rendered message of a `DomainInitError`. -/
def DomainInitError.message : DomainInitError → String
  | .enumValueError s => "'" ++ s ++ "' is not a valid MetricDomainTypes"
  | .unsupportedType v t =>
    "Cannot instantiate Domain (domain_type \"" ++ v ++ "\" of type \"" ++ t
      ++ "\" is not supported)."

/-- Whether the error message names the offending value. -/
def DomainInitError.namesOffendingValue : DomainInitError → Bool
  | .enumValueError _ => true
  | .unsupportedType _ _ => true

/-- Whether the error message names the type of the offending value. -/
def DomainInitError.namesOffendingType : DomainInitError → Bool
  | .enumValueError _ => false
  | .unsupportedType _ _ => true

/-- The `domain_type` validation of `Domain.__init__`: a string goes through
Python's by-value enum lookup `MetricDomainTypes(domain_type)` — whose
`ValueError` on an unknown string is NOT caught by the
`except (TypeError, KeyError)` clause and therefore propagates as is — an
enum instance is accepted, and anything else hits the explicit
`raise ValueError` naming the value and its type. -/
def parseDomainType : PyVal → Except DomainInitError MetricDomainTypes
  | .str s =>
    match MetricDomainTypes.fromValue s with
    | some t => .ok t
    | none => .error (.enumValueError s)
  | .enumMetric t => .ok t
  | v => .error (.unsupportedType (pyStr v) (pyTypeName v))

/-- The `Domain` value object: the four logical fields kept by
`Domain.__init__` (which stores them through `super().__init__`). -/
structure Domain where
  rule_name : String
  domain_type : MetricDomainTypes
  domain_kwargs : PyVal
  details : List (String × PyVal)
deriving DecidableEq

/-- `Domain.__init__`: validates `domain_type`, defaults `domain_kwargs` to
an empty `DomainKwargs`, deep-cleans and recursively wraps the kwargs, and
defaults `details` to `{}`.  On a rejected `domain_type` the error is raised
before anything is constructed. -/
def Domain.build (rule_name : String) (domain_type : PyVal)
    (domain_kwargs : Option (List (String × PyVal)))
    (details : Option (List (String × PyVal))) :
    Except DomainInitError Domain :=
  match parseDomainType domain_type with
  | .error e => .error e
  | .ok t =>
    .ok { rule_name := rule_name, domain_type := t,
          domain_kwargs := convertDomainKwargs (.dict (domain_kwargs.getD [])),
          details := details.getD [] }

/-- The raw mapping contents of a `Domain` (a `Domain` is itself a `dict`
holding the four constructor fields, with `domain_type` still an enum
instance). -/
def Domain.asDict (d : Domain) : PyVal :=
  .dict [("rule_name", .str d.rule_name),
    ("domain_type", .enumMetric d.domain_type),
    ("domain_kwargs", d.domain_kwargs),
    ("details", .dict d.details)]

/-- ASCII lowercasing of one character, the case Python's `str.lower()`
exercises on the identifiers this excerpt manipulates. -/
def charLower (c : Char) : Char :=
  if 65 ≤ c.val.toNat && c.val.toNat ≤ 90 then Char.ofNat (c.val.toNat + 32)
  else c

/-- Python's `str.lower()` (ASCII range), kept kernel-computable. -/
def pyLower (s : String) : String := ⟨s.data.map charLower⟩

/-- Normalization of one column entry under the reserved details key:
`SemanticDomainTypes(semantic_type.lower()).value` for a string,
`semantic_type.value` for an enum instance, `AttributeError` otherwise. -/
def normalizeSemanticType : PyVal → Except String PyVal
  | .str s =>
    match SemanticDomainTypes.fromValue (pyLower s) with
    | some t => .ok (.str t.value)
    | none =>
      .error ("ValueError: '" ++ pyLower s ++ "' is not a valid SemanticDomainTypes")
  | .enumSemantic t => .ok (.str t.value)
  | .enumMetric t => .ok (.str t.value)
  | _ => .error "AttributeError: no attribute value"

def normalizeInferredEntries :
    List (String × PyVal) → Except String (List (String × PyVal))
  | [] => .ok []
  | kv :: rest =>
    match normalizeSemanticType kv.2 with
    | .error e => .error e
    | .ok v' =>
      match normalizeInferredEntries rest with
      | .error e => .error e
      | .ok rest' => .ok ((kv.1, v') :: rest')

/-- The dict comprehension normalizing the column-to-semantic-type mapping
stored under the reserved details key (`value.items()` requires a mapping). -/
def normalizeInferred : PyVal → Except String PyVal
  | .dict m =>
    match normalizeInferredEntries m with
    | .error e => .error e
    | .ok m' => .ok (.dict m')
  | _ => .error "AttributeError: items"

/-- One iteration of the details loop of `Domain.to_json_dict`. -/
def Domain.detailEntry (kv : String × PyVal) :
    Except String (String × PyVal) :=
  match (if truthy kv.2 && (kv.1 == INFERRED_SEMANTIC_TYPE_KEY)
    then normalizeInferred kv.2
    else .ok kv.2) with
  | .error e => .error e
  | .ok value =>
    match convert_to_json_serializable value with
    | .error e => .error e
    | .ok cv => .ok (kv.1, cv)

def Domain.processDetails :
    List (String × PyVal) → Except String (List (String × PyVal))
  | [] => .ok []
  | kv :: rest =>
    match Domain.detailEntry kv with
    | .error e => .error e
    | .ok e =>
      match Domain.processDetails rest with
      | .error e2 => .error e2
      | .ok rest' => .ok (e :: rest')

/-- `Domain.to_json_dict`: normalize the details (with the reserved-key
special case), render `domain_type` as its enum string value, serialize the
kwargs, and strip falsy top-level entries from the resulting dict. -/
def Domain.toJsonDict (d : Domain) : Except String PyVal :=
  match Domain.processDetails d.details with
  | .error e => .error e
  | .ok details =>
    match convert_to_json_serializable d.domain_kwargs with
    | .error e => .error e
    | .ok kwargsJson =>
      .ok (filterFalsyTop (.dict
        [("rule_name", .str d.rule_name),
         ("domain_type", .str d.domain_type.value),
         ("domain_kwargs", kwargsJson),
         ("details", .dict details)]))

/-- `Domain.__eq__` restricted to two `Domain` operands (`other` is then
never `None`, has `to_json_dict`, and is an instance of `dict`).  Python's
`==` on dicts ignores insertion order (`pyEq`); the third disjunct compares
the pretty-printed reprs, and `json.dumps` is injective on JSON trees, so it
is modelled as structural equality of the two json dicts. -/
def Domain.eqPy (a b : Domain) : Except String Bool :=
  match a.toJsonDict with
  | .error e => .error e
  | .ok ja =>
    match b.toJsonDict with
    | .error e => .error e
    | .ok jb =>
      .ok (pyEq ja jb
        || pyEq (filterFalsyTop ja) (filterFalsyTop b.asDict)
        || ja == jb)

/-- `Domain.id`: the content digest of the canonical JSON form. -/
def Domain.id (d : Domain) : Except String String :=
  match d.toJsonDict with
  | .error e => .error e
  | .ok j => .ok (IDDict.to_id j)

/-- `Domain.__hash__`: `hash(self.id)`. -/
def Domain.hashPy (d : Domain) : Except String UInt64 :=
  match d.id with
  | .error e => .error e
  | .ok i => .ok i.hash


/-- A run identifier (run name and run time).
Modelled from the spec: `RunIdentifier` lives in
`great_expectations/core/run_identifier.py`, outside this excerpt; the spec
only uses its key-tuple conversion. -/
structure RunIdentifier where
  run_name : String
  run_time : String
deriving DecidableEq

def RunIdentifier.to_tuple (r : RunIdentifier) : List String :=
  [r.run_name, r.run_time]

/-- The composite metric key.
Modelled from the spec: `ValidationMetricIdentifier` lives in
`great_expectations/core/metric.py`, outside this excerpt; the spec gives its
six components: "(run name, run time, data asset name, expectation-suite
identifier, metric name, metric-kwargs id)". -/
structure ValidationMetricIdentifier where
  run_name : String
  run_time : String
  data_asset_name : String
  expectation_suite_identifier : String
  metric_name : String
  metric_kwargs_id : String
deriving DecidableEq

def ValidationMetricIdentifier.to_tuple (k : ValidationMetricIdentifier) :
    List String :=
  [k.run_name, k.run_time, k.data_asset_name,
   k.expectation_suite_identifier, k.metric_name, k.metric_kwargs_id]

/-- `Store.tuple_to_key` for the metric-key class.
Modelled from the spec: the generic store base's key conversion, outside this
excerpt, rebuilds the key object from its tuple. -/
def ValidationMetricIdentifier.tuple_to_key (t : List String) :
    Option ValidationMetricIdentifier :=
  match t with
  | [a, b, c, d, e, f] => some ⟨a, b, c, d, e, f⟩
  | _ => none

/-- The URN under which an evaluation parameter is exposed.
Modelled from the spec: "a string identifier format used to address a stored
evaluation parameter value", derived from the key's suite / metric
components. -/
def ValidationMetricIdentifier.to_evaluation_parameter_urn
    (k : ValidationMetricIdentifier) : String :=
  "urn:great_expectations:validations:" ++ k.expectation_suite_identifier
    ++ ":" ++ k.metric_name ++ ":" ++ k.metric_kwargs_id

/-- The raw value held by the backend under one key: `none` models an
absent/empty raw string, `some j` a nonempty JSON document (the wire string
is modelled by the JSON tree it encodes; `json.dumps`/`json.loads` are the
stdlib inverse pair between the two). -/
abbrev Wire := Option PyVal

/-- The in-memory backend: key tuples with their raw values, in insertion
order.  Modelled from the spec: the pluggable backend with
`get`/`set`/`list_keys` is outside this excerpt. -/
abbrev StoreBackend := List (List String × Wire)

def backendGet (be : StoreBackend) (t : List String) : Option Wire :=
  match be with
  | [] => none
  | e :: rest => if e.1 = t then some e.2 else backendGet rest t

def backendSet (be : StoreBackend) (t : List String) (w : Wire) :
    StoreBackend :=
  match be with
  | [] => [(t, w)]
  | e :: rest => if e.1 = t then (t, w) :: rest else e :: backendSet rest t w

def tupleMatchesRun (p t : List String) : Bool :=
  match p, t with
  | [], _ => true
  | _ :: _, [] => false
  | a :: p, b :: t => a == b && tupleMatchesRun p t

/-- `store_backend.list_keys(run_id.to_tuple())`: the key tuples under the
given run-identifier prefix, in backend-list order. -/
def backendListKeys (be : StoreBackend) (p : List String) :
    List (List String) :=
  (be.filter (fun e => tupleMatchesRun p e.1)).map (fun e => e.1)

/-- `MetricStore._validate_value`: values must be JSON serializable
(`ensure_json_serializable`, modelled from the spec as the deep
JSON-serializability check that the converter passes exactly on JSON
trees). -/
def ensure_json_serializable (v : PyVal) : Except String Unit :=
  match convert_to_json_serializable v with
  | .ok _ => .ok ()
  | .error e => .error e

def MetricStore.validate_value (v : PyVal) : Except String Unit :=
  ensure_json_serializable v

/-- `MetricStore.serialize`: `json.dumps({"value": value})`.  `json.dumps`
succeeds exactly on JSON-serializable trees and its output here is always a
nonempty string, modelled by the JSON tree it encodes. -/
def MetricStore.serialize (_key : ValidationMetricIdentifier) (value : PyVal) :
    Except String Wire :=
  match convert_to_json_serializable (.dict [("value", value)]) with
  | .ok _ => .ok (some (.dict [("value", value)]))
  | .error e => .error e

/-- `MetricStore.deserialize`: `if value: return json.loads(value)["value"]`.
An absent/empty raw value is falsy and yields the implicit `None`; otherwise
the parsed document is subscripted at `"value"`. -/
def MetricStore.deserialize (_key : ValidationMetricIdentifier) (value : Wire) :
    Except String (Option PyVal) :=
  match value with
  | none => .ok none
  | some j =>
    match j with
    | .dict kvs =>
      match pyLookup kvs "value" with
      | some v => .ok (some v)
      | none => .error "KeyError: 'value'"
    | _ => .error "TypeError: not subscriptable"

/-- `MetricStore.set` (via the generic store base).
Modelled from the spec: the base `Store.set` is outside this excerpt; it
"rejects non-JSON-serializable input with a validation error before any
write reaches the backend", then writes the serialized value under the key
tuple.  The backend state is returned alongside the outcome so that the
failure paths visibly leave it untouched. -/
def MetricStore.set (be : StoreBackend) (key : ValidationMetricIdentifier)
    (value : PyVal) : Except String Unit × StoreBackend :=
  match MetricStore.validate_value value with
  | .error e => (.error e, be)
  | .ok _ =>
    match MetricStore.serialize key value with
    | .error e => (.error e, be)
    | .ok w => (.ok (), backendSet be key.to_tuple w)

/-- `MetricStore.get` (via the generic store base).
Modelled from the spec: the base `Store.get` is outside this excerpt; it
fetches the raw value under the key tuple and deserializes it. -/
def MetricStore.get (be : StoreBackend) (key : ValidationMetricIdentifier) :
    Except String (Option PyVal) :=
  match backendGet be key.to_tuple with
  | none => .error "KeyError: key not found"
  | some w => MetricStore.deserialize key w

def paramsSet (ps : List (String × Option PyVal)) (k : String)
    (v : Option PyVal) : List (String × Option PyVal) :=
  match ps with
  | [] => [(k, v)]
  | p :: rest => if p.1 = k then (k, v) :: rest else p :: paramsSet rest k v

def bindParamsLoop (be : StoreBackend) :
    List (List String) → List (String × Option PyVal) →
    Except String (List (String × Option PyVal))
  | [], params => .ok params
  | t :: rest, params =>
    match ValidationMetricIdentifier.tuple_to_key t with
    | none => .error "InvalidKeyError"
    | some key =>
      match MetricStore.get be key with
      | .error e => .error e
      | .ok v =>
        bindParamsLoop be rest
          (paramsSet params key.to_evaluation_parameter_urn v)

/-- `EvaluationParameterStore.get_bind_params`: list all backend keys under
the run tuple, convert each to a metric key, and bind the fetched value
under the key's evaluation-parameter URN (a Python dict assignment, so a
duplicate URN overwrites the earlier entry). -/
def EvaluationParameterStore.get_bind_params (be : StoreBackend)
    (run_id : RunIdentifier) :
    Except String (List (String × Option PyVal)) :=
  bindParamsLoop be (backendListKeys be run_id.to_tuple) []

/-- The resolved store-backend class; the only property this excerpt reads
off it is whether it is a database-backed subclass.
Modelled from the spec: `load_class` / `DatabaseStoreBackend` are outside
this excerpt. -/
structure StoreBackendClass where
  isDatabaseBackend : Bool
deriving DecidableEq

/-- The dynamic class loader (`verify_dynamic_loading_support` +
`load_class`), abstracted as a caller-supplied resolver from the
`module_name` / `class_name` configuration values; resolution failure is a
fatal construction-time error.  Modelled from the spec. -/
abbrev BackendResolver := PyVal → PyVal → Except String StoreBackendClass

def keyColumnsDefault : PyVal :=
  .list [.str "run_name", .str "run_time", .str "data_asset_name",
    .str "expectation_suite_identifier", .str "metric_name",
    .str "metric_kwargs_id"]

/-- `MetricStore.__init__`'s handling of the caller-supplied `store_backend`
mapping: read `module_name`/`class_name` with their defaults, resolve the
backend class, and — when it is a database backend — insert defaults for
missing `table_name` / `key_columns` entries into the mapping itself.
Returns the mapping as construction leaves it. -/
def MetricStore.initStoreBackend (resolve : BackendResolver) :
    Option (List (String × PyVal)) →
    Except String (Option (List (String × PyVal)))
  | none => .ok none
  | some m =>
    match resolve
      ((pyLookup m "module_name").getD
        (.str "great_expectations.data_context.store"))
      ((pyLookup m "class_name").getD (.str "InMemoryStoreBackend")) with
    | .error e => .error e
    | .ok cls =>
      let m1 := if cls.isDatabaseBackend && !pyHasKey m "table_name"
        then pySet m "table_name"
          ((pyLookup m "table_name").getD (.str "ge_metrics"))
        else m
      let m2 := if cls.isDatabaseBackend && !pyHasKey m1 "key_columns"
        then pySet m1 "key_columns"
          ((pyLookup m1 "key_columns").getD keyColumnsDefault)
        else m1
      .ok (some m2)

/-- `EvaluationParameterStore.__init__`'s handling of the caller-supplied
`store_backend` mapping: for a database backend it assigns
`store_backend["table_name"] = store_backend.get("table_name",
"ge_evaluation_parameters")` (unconditionally, though a present value is
rewritten to itself), then delegates to `MetricStore.__init__`. -/
def EvaluationParameterStore.initStoreBackend (resolve : BackendResolver) :
    Option (List (String × PyVal)) →
    Except String (Option (List (String × PyVal)))
  | none => MetricStore.initStoreBackend resolve none
  | some m =>
    match resolve
      ((pyLookup m "module_name").getD
        (.str "great_expectations.data_context.store"))
      ((pyLookup m "class_name").getD (.str "InMemoryStoreBackend")) with
    | .error e => .error e
    | .ok cls =>
      let m1 := if cls.isDatabaseBackend
        then pySet m "table_name"
          ((pyLookup m "table_name").getD (.str "ge_evaluation_parameters"))
        else m
      MetricStore.initStoreBackend resolve (some m1)

/-! ### Basic lemmas about the embedded utilities -/

/-- The key ordering used by the canonical (sorted-keys) form. -/
def keyLe (a b : String × PyVal) : Prop := a.1 ≤ b.1

instance : DecidableRel keyLe := fun a b => by
  unfold keyLe; infer_instance

theorem insertSorted_perm (x : String × PyVal) (l : List (String × PyVal)) :
    (insertSorted x l).Perm (x :: l) := by
  induction l with
  | nil => simp [insertSorted]
  | cons y ys ih =>
    simp only [insertSorted]
    split
    · exact List.Perm.refl _
    · exact (ih.cons y).trans (List.Perm.swap x y ys)

theorem sortByKey_perm (l : List (String × PyVal)) :
    (sortByKey l).Perm l := by
  induction l with
  | nil => simp [sortByKey]
  | cons x xs ih =>
    exact (insertSorted_perm x (sortByKey xs)).trans (ih.cons x)

theorem insertSorted_pairwise (x : String × PyVal)
    (l : List (String × PyVal)) (h : l.Pairwise keyLe) :
    (insertSorted x l).Pairwise keyLe := by
  induction l with
  | nil => simp [insertSorted]
  | cons y ys ih =>
    rw [List.pairwise_cons] at h
    obtain ⟨hy, hys⟩ := h
    simp only [insertSorted]
    split
    · rename_i hle0
      have hle : x.1 ≤ y.1 := (strLeB_iff _ _).mp hle0
      rw [List.pairwise_cons]
      refine ⟨?_, ?_⟩
      · intro b hb
        rcases List.mem_cons.mp hb with rfl | hb2
        · exact hle
        · exact le_trans hle (hy _ hb2)
      · rw [List.pairwise_cons]
        exact ⟨hy, hys⟩
    · rename_i hnle0
      have hnle : ¬ x.1 ≤ y.1 := fun hc =>
        hnle0 ((strLeB_iff _ _).mpr hc)
      have hxy : keyLe y x := le_of_lt (lt_of_not_le hnle)
      rw [List.pairwise_cons]
      refine ⟨?_, ih hys⟩
      intro b hb
      rcases List.mem_cons.mp ((insertSorted_perm x ys).mem_iff.mp hb)
        with rfl | hb2
      · exact hxy
      · exact hy _ hb2

theorem sortByKey_pairwise (l : List (String × PyVal)) :
    (sortByKey l).Pairwise keyLe := by
  induction l with
  | nil => simp [sortByKey, List.Pairwise]
  | cons x xs ih => exact insertSorted_pairwise x (sortByKey xs) ih

/-- Two key-sorted association lists that are permutations of each other and
have duplicate-free keys are equal. -/
theorem eq_of_perm_of_sortedByKey (l1 l2 : List (String × PyVal))
    (hp : l1.Perm l2) (h1 : l1.Pairwise keyLe) (h2 : l2.Pairwise keyLe)
    (hnd : (l1.map Prod.fst).Nodup) : l1 = l2 := by
  have hnd2 : (l2.map Prod.fst).Nodup := ((hp.map Prod.fst).nodup_iff).mp hnd
  have hne1 : l1.Pairwise (fun a b : String × PyVal => a.1 ≠ b.1) :=
    (List.pairwise_map).mp hnd
  have hne2 : l2.Pairwise (fun a b : String × PyVal => a.1 ≠ b.1) :=
    (List.pairwise_map).mp hnd2
  have hlt1 : l1.Pairwise (fun a b : String × PyVal => a.1 < b.1) :=
    (h1.and hne1).imp (fun h => lt_of_le_of_ne h.1 h.2)
  have hlt2 : l2.Pairwise (fun a b : String × PyVal => a.1 < b.1) :=
    (h2.and hne2).imp (fun h => lt_of_le_of_ne h.1 h.2)
  haveI : IsAntisymm (String × PyVal) (fun a b => a.1 < b.1) :=
    ⟨fun _ _ hab hba => absurd (lt_trans hab hba) (lt_irrefl _)⟩
  exact List.eq_of_perm_of_sorted hp hlt1 hlt2

/-- `filter` after `map` pushes inside the `map`. -/
theorem filter_map_push {α β : Type} (l : List α) (f : α → β) (p : β → Bool) :
    (l.map f).filter p = (l.filter (fun a => p (f a))).map f := by
  induction l with
  | nil => simp
  | cons x xs ih =>
    by_cases h : p (f x) <;> simp [h, ih]

/-! Normal forms of the mutually recursive helpers. -/

theorem canonList_eq_map (xs : List PyVal) : canonList xs = xs.map canon := by
  induction xs with
  | nil => simp [canonList]
  | cons x xs ih => simp [canonList, ih]

theorem canonEntries_eq_map (kvs : List (String × PyVal)) :
    canonEntries kvs = kvs.map (fun kv => (kv.1, canon kv.2)) := by
  induction kvs with
  | nil => simp [canonEntries]
  | cons kv rest ih => simp [canonEntries, ih]

theorem deepFilterList_eq (xs : List PyVal) :
    deepFilterList xs = (xs.map deepFilter).filter truthy := by
  induction xs with
  | nil => simp [deepFilterList]
  | cons x xs ih =>
    by_cases h : truthy (deepFilter x) <;> simp [deepFilterList, h, ih]

theorem deepFilterEntries_eq (kvs : List (String × PyVal)) :
    deepFilterEntries kvs =
      (kvs.map (fun kv => (kv.1, deepFilter kv.2))).filter
        (fun kv => truthy kv.2) := by
  induction kvs with
  | nil => simp [deepFilterEntries]
  | cons kv rest ih =>
    by_cases h : truthy (deepFilter kv.2) <;> simp [deepFilterEntries, h, ih]

theorem convertKwEntries_eq (kvs : List (String × PyVal)) :
    convertKwEntries kvs =
      kvs.map (fun kv => (kv.1, convertDomainKwargs kv.2)) := by
  induction kvs with
  | nil => simp [convertKwEntries]
  | cons kv rest ih => simp [convertKwEntries, ih]

theorem mapfst_canonEntries (kvs : List (String × PyVal)) :
    (canonEntries kvs).map Prod.fst = kvs.map Prod.fst := by
  simp [canonEntries_eq_map, List.map_map]

/-- Canonicalization preserves truthiness. -/
theorem truthy_canon (v : PyVal) : truthy (canon v) = truthy v := by
  cases v with
  | list xs =>
    cases xs <;> simp [canon, truthy, canonList]
  | dict kvs =>
    cases kvs with
    | nil => simp [canon, truthy, canonEntries, sortByKey]
    | cons kv rest =>
      simp only [canon, truthy]
      have hlen : (sortByKey (canonEntries (kv :: rest))).length
          = rest.length + 1 := by
        rw [(sortByKey_perm (canonEntries (kv :: rest))).length_eq]
        simp [canonEntries_eq_map]
      cases hs : sortByKey (canonEntries (kv :: rest)) with
      | nil => rw [hs] at hlen; simp at hlen
      | cons a as => simp
  | _ => rfl

theorem wfList_mem {xs : List PyVal} (h : wfList xs = true) :
    ∀ x ∈ xs, wf x = true := by
  induction xs with
  | nil => intro x hx; cases hx
  | cons y ys ih =>
    simp only [wfList, Bool.and_eq_true] at h
    intro x hx
    rcases List.mem_cons.mp hx with rfl | hx2
    · exact h.1
    · exact ih h.2 x hx2

theorem wfEntries_mem {kvs : List (String × PyVal)}
    (h : wfEntries kvs = true) : ∀ kv ∈ kvs, wf kv.2 = true := by
  induction kvs with
  | nil => intro kv hkv; cases hkv
  | cons y ys ih =>
    simp only [wfEntries, Bool.and_eq_true] at h
    intro kv hkv
    rcases List.mem_cons.mp hkv with rfl | hkv2
    · exact h.1
    · exact ih h.2 kv hkv2

theorem wf_dict_nodup {kvs : List (String × PyVal)}
    (h : wf (.dict kvs) = true) : (kvs.map Prod.fst).Nodup := by
  simp only [wf, Bool.and_eq_true, decide_eq_true_eq] at h
  exact h.1

theorem wf_dict_entries {kvs : List (String × PyVal)}
    (h : wf (.dict kvs) = true) : wfEntries kvs = true := by
  simp only [wf, Bool.and_eq_true] at h
  exact h.2

theorem wf_list_elems {xs : List PyVal} (h : wf (.list xs) = true) :
    wfList xs = true := h

/-- Unsorted middle form shared by the two sides of the
canonicalize / deep-filter commutation on dictionary entries. -/
theorem entries_mid (kvs : List (String × PyVal))
    (hcomm : ∀ kv ∈ kvs, canon (deepFilter kv.2) = deepFilter (canon kv.2)) :
    canonEntries (deepFilterEntries kvs)
      = List.filter (fun kv => truthy kv.2)
          (List.map (fun kv => (kv.1, deepFilter kv.2)) (canonEntries kvs)) := by
  induction kvs with
  | nil => rfl
  | cons kv rest ih2 =>
    have hkv := hcomm kv (by simp)
    have hrest := ih2 (fun a ha => hcomm a (by simp [ha]))
    have ht2 : truthy (deepFilter (canon kv.2)) = truthy (deepFilter kv.2) := by
      rw [← hkv, truthy_canon]
    by_cases ht : truthy (deepFilter kv.2)
    · simp [deepFilterEntries, canonEntries, ht, ht2, hkv, hrest]
    · simp [deepFilterEntries, canonEntries, ht, ht2, hrest]

/-- On well-formed values, canonicalization and the deep falsy filter
commute.  This is the heart of the order-insensitivity of the Domain id:
the filter walks entries in insertion order while `canon` sorts keys, and
with duplicate-free keys the two orders reconcile. -/
theorem canon_deepFilter_comm :
    ∀ v : PyVal, wf v = true → canon (deepFilter v) = deepFilter (canon v) := by
  intro v
  induction v using PyVal.inductionOn with
  | h0 => intro _; rfl
  | hb b => intro _; rfl
  | hi n => intro _; rfl
  | hs s => intro _; rfl
  | hm t => intro _; rfl
  | hsem t => intro _; rfl
  | hh s => intro _; rfl
  | hl xs ih =>
    intro hwf
    have hmem : ∀ x ∈ xs, wf x = true := wfList_mem (wf_list_elems hwf)
    simp only [deepFilter, canon]
    congr 1
    rw [canonList_eq_map, deepFilterList_eq, deepFilterList_eq,
      canonList_eq_map, filter_map_push, List.map_map, List.map_map,
      filter_map_push]
    simp only [Function.comp_def]
    have hpred : xs.filter (fun a => truthy (deepFilter (canon a)))
        = xs.filter (fun a => truthy (deepFilter a)) := by
      apply List.filter_congr
      intro a ha
      rw [← ih a ha (hmem a ha), truthy_canon]
    rw [hpred]
    apply List.map_congr_left
    intro a ha
    exact ih a ((List.mem_filter.mp ha).1) (hmem a (List.mem_filter.mp ha).1)
  | hd kvs ih =>
    intro hwf
    have hmem : ∀ kv ∈ kvs, wf kv.2 = true := wfEntries_mem (wf_dict_entries hwf)
    have hnodup : (kvs.map Prod.fst).Nodup := wf_dict_nodup hwf
    have hmid := entries_mid kvs (fun kv hkv => ih kv hkv (hmem kv hkv))
    simp only [deepFilter, canon]
    congr 1
    apply eq_of_perm_of_sortedByKey
    · have p1 : (sortByKey (canonEntries (deepFilterEntries kvs))).Perm
          (canonEntries (deepFilterEntries kvs)) := sortByKey_perm _
      have p2 : (deepFilterEntries (sortByKey (canonEntries kvs))).Perm
          (List.filter (fun kv => truthy kv.2)
            (List.map (fun kv => (kv.1, deepFilter kv.2))
              (canonEntries kvs))) := by
        rw [deepFilterEntries_eq]
        exact ((sortByKey_perm (canonEntries kvs)).map _).filter _
      rw [← hmid] at p2
      exact p1.trans p2.symm
    · exact sortByKey_pairwise _
    · rw [deepFilterEntries_eq]
      apply List.Pairwise.filter
      rw [List.pairwise_map]
      exact (sortByKey_pairwise _).imp (fun h => h)
    · have hperm :=
        (sortByKey_perm (canonEntries (deepFilterEntries kvs))).map Prod.fst
      rw [hperm.nodup_iff, mapfst_canonEntries, deepFilterEntries_eq]
      refine List.Sublist.nodup ((List.filter_sublist _).map Prod.fst) ?_
      rw [List.map_map]
      exact hnodup

theorem deepFilterEntries_idem (kvs : List (String × PyVal))
    (h : ∀ kv ∈ kvs, deepFilter (deepFilter kv.2) = deepFilter kv.2) :
    deepFilterEntries (deepFilterEntries kvs) = deepFilterEntries kvs := by
  induction kvs with
  | nil => rfl
  | cons kv rest ih =>
    have hkv := h kv (by simp)
    have hrest := ih (fun a ha => h a (by simp [ha]))
    by_cases ht : truthy (deepFilter kv.2)
    · have ht2 : truthy (deepFilter (deepFilter kv.2)) = true := by
        rw [hkv]; exact ht
      simp [deepFilterEntries, ht, ht2, hkv, hrest]
    · simp [deepFilterEntries, ht, hrest]

theorem deepFilterList_idem (xs : List PyVal)
    (h : ∀ x ∈ xs, deepFilter (deepFilter x) = deepFilter x) :
    deepFilterList (deepFilterList xs) = deepFilterList xs := by
  induction xs with
  | nil => rfl
  | cons x rest ih =>
    have hx := h x (by simp)
    have hrest := ih (fun a ha => h a (by simp [ha]))
    by_cases ht : truthy (deepFilter x)
    · have ht2 : truthy (deepFilter (deepFilter x)) = true := by
        rw [hx]; exact ht
      simp [deepFilterList, ht, ht2, hx, hrest]
    · simp [deepFilterList, ht, hrest]

theorem deepFilter_idem : ∀ v, deepFilter (deepFilter v) = deepFilter v := by
  intro v
  induction v using PyVal.inductionOn with
  | h0 => rfl
  | hb b => rfl
  | hi n => rfl
  | hs s => rfl
  | hm t => rfl
  | hsem t => rfl
  | hh s => rfl
  | hl xs ih =>
    simp only [deepFilter]
    congr 1
    exact deepFilterList_idem xs ih
  | hd kvs ih =>
    simp only [deepFilter]
    congr 1
    exact deepFilterEntries_idem kvs ih

theorem mem_deepFilterEntries {kv : String × PyVal}
    {kvs : List (String × PyVal)} (h : kv ∈ deepFilterEntries kvs) :
    ∃ u ∈ kvs, kv = (u.1, deepFilter u.2) := by
  rw [deepFilterEntries_eq] at h
  have h2 := (List.mem_filter.mp h).1
  obtain ⟨u, hu, he⟩ := List.mem_map.mp h2
  exact ⟨u, hu, he.symm⟩

/-- `_convert_dictionaries_to_domain_kwargs` is the identity on values that
are already deep-filtered. -/
theorem convertKw_deepFilter :
    ∀ v, convertDomainKwargs (deepFilter v) = deepFilter v := by
  intro v
  induction v using PyVal.inductionOn with
  | h0 => simp [deepFilter, convertDomainKwargs]
  | hb b => simp [deepFilter, convertDomainKwargs]
  | hi n => simp [deepFilter, convertDomainKwargs]
  | hs s => simp [deepFilter, convertDomainKwargs]
  | hm t => simp [deepFilter, convertDomainKwargs]
  | hsem t => simp [deepFilter, convertDomainKwargs]
  | hh s => simp [deepFilter, convertDomainKwargs]
  | hl xs ih => simp [deepFilter, convertDomainKwargs]
  | hd kvs ih =>
    show convertDomainKwargs (.dict (deepFilterEntries kvs))
      = .dict (deepFilterEntries kvs)
    rw [convertDomainKwargs]
    rw [deepFilterEntries_idem kvs (fun kv _ => deepFilter_idem kv.2)]
    congr 1
    rw [convertKwEntries_eq]
    have hid : ∀ kv ∈ deepFilterEntries kvs,
        (fun kv : String × PyVal => (kv.1, convertDomainKwargs kv.2)) kv
          = id kv := by
      intro kv hkv
      obtain ⟨u, hu, rfl⟩ := mem_deepFilterEntries hkv
      simp only [id]
      rw [ih u hu]
    rw [List.map_congr_left hid, List.map_id]

/-- On a (non-`Domain`) mapping, `_convert_dictionaries_to_domain_kwargs`
coincides with the deep falsy filter. -/
theorem convertKw_dict_eq (kvs : List (String × PyVal)) :
    convertDomainKwargs (.dict kvs) = deepFilter (.dict kvs) := by
  rw [convertDomainKwargs, deepFilter]
  congr 1
  rw [convertKwEntries_eq]
  have hid : ∀ kv ∈ deepFilterEntries kvs,
      (fun kv : String × PyVal => (kv.1, convertDomainKwargs kv.2)) kv
        = id kv := by
    intro kv hkv
    obtain ⟨u, hu, rfl⟩ := mem_deepFilterEntries hkv
    simp only [id]
    rw [convertKw_deepFilter]
  rw [List.map_congr_left hid, List.map_id]

theorem convertList_ok_eq (xs : List PyVal)
    (ih : ∀ x ∈ xs, ∀ w, convert_to_json_serializable x = .ok w → w = x) :
    ∀ ys, convertList xs = .ok ys → ys = xs := by
  induction xs with
  | nil => intro ys h; simp [convertList] at h; exact h
  | cons x rest ihx =>
    intro ys h
    simp only [convertList] at h
    cases hx : convert_to_json_serializable x with
    | error e => rw [hx] at h; simp at h
    | ok x' =>
      rw [hx] at h
      cases hrest : convertList rest with
      | error e => rw [hrest] at h; simp at h
      | ok rest' =>
        rw [hrest] at h
        have h2 : x' :: rest' = ys := by simpa using h
        rw [← h2, ih x (by simp) x' hx,
          ihx (fun a ha w hw => ih a (by simp [ha]) w hw) rest' hrest]

theorem convertEntries_ok_eq (kvs : List (String × PyVal))
    (ih : ∀ kv ∈ kvs, ∀ w,
      convert_to_json_serializable kv.2 = .ok w → w = kv.2) :
    ∀ ys, convertEntries kvs = .ok ys → ys = kvs := by
  induction kvs with
  | nil => intro ys h; simp [convertEntries] at h; exact h
  | cons kv rest ihx =>
    intro ys h
    simp only [convertEntries] at h
    cases hx : convert_to_json_serializable kv.2 with
    | error e => rw [hx] at h; simp at h
    | ok v' =>
      rw [hx] at h
      cases hrest : convertEntries rest with
      | error e => rw [hrest] at h; simp at h
      | ok rest' =>
        rw [hrest] at h
        have h2 : (kv.1, v') :: rest' = ys := by simpa using h
        rw [← h2, ih kv (by simp) v' hx,
          ihx (fun a ha w hw => ih a (by simp [ha]) w hw) rest' hrest]

/-- The JSON converter is the identity whenever it succeeds. -/
theorem convert_ok_eq :
    ∀ v w, convert_to_json_serializable v = .ok w → w = v := by
  intro v
  induction v using PyVal.inductionOn with
  | h0 => intro w h; simp [convert_to_json_serializable] at h; exact h.symm
  | hb b => intro w h; simp [convert_to_json_serializable] at h; exact h.symm
  | hi n => intro w h; simp [convert_to_json_serializable] at h; exact h.symm
  | hs s => intro w h; simp [convert_to_json_serializable] at h; exact h.symm
  | hm t => intro w h; simp [convert_to_json_serializable] at h
  | hsem t => intro w h; simp [convert_to_json_serializable] at h
  | hh s => intro w h; simp [convert_to_json_serializable] at h
  | hl xs ih =>
    intro w h
    simp only [convert_to_json_serializable] at h
    cases hx : convertList xs with
    | error e => rw [hx] at h; simp at h
    | ok ys =>
      rw [hx] at h
      have h2 : PyVal.list ys = w := by simpa using h
      rw [← h2, convertList_ok_eq xs ih ys hx]
  | hd kvs ih =>
    intro w h
    simp only [convert_to_json_serializable] at h
    cases hx : convertEntries kvs with
    | error e => rw [hx] at h; simp at h
    | ok ys =>
      rw [hx] at h
      have h2 : PyVal.dict ys = w := by simpa using h
      rw [← h2, convertEntries_ok_eq kvs ih ys hx]

/-! ### Claim theorems -/

/-- C1: for every JSON-serializable value `v` and key `k`, storing `v` via
`MetricStore.serialize` and reading it back via `MetricStore.deserialize`
yields the value unchanged (round-trip through the `{"value": v}` JSON
envelope). -/
theorem C1_round_trip (k : ValidationMetricIdentifier) (v : PyVal) (w : Wire)
    (h : MetricStore.serialize k v = .ok w) :
    MetricStore.deserialize k w = .ok (some v) := by
  unfold MetricStore.serialize at h
  cases hc : convert_to_json_serializable (.dict [("value", v)]) with
  | error e => rw [hc] at h; simp at h
  | ok j =>
    rw [hc] at h
    have h2 : some (PyVal.dict [("value", v)]) = w := by simpa using h
    rw [← h2]
    simp [MetricStore.deserialize, pyLookup]

theorem C1_round_trip_witness :
    MetricStore.serialize ⟨"r", "t", "a", "s", "m", "k"⟩ (.int 7)
        = .ok (some (.dict [("value", .int 7)]))
    ∧ MetricStore.deserialize ⟨"r", "t", "a", "s", "m", "k"⟩
        (some (.dict [("value", .int 7)])) = .ok (some (.int 7)) :=
  ⟨rfl, C1_round_trip ⟨"r", "t", "a", "s", "m", "k"⟩ (.int 7)
    (some (.dict [("value", .int 7)])) rfl⟩

/-- C5: a write of a non-JSON-serializable value through `MetricStore.set`
fails the `_validate_value` check and raises before any data reaches the
storage backend, leaving the backend state unchanged. -/
theorem C5_validate_rejects (be : StoreBackend)
    (k : ValidationMetricIdentifier) (v : PyVal) (e : String)
    (h : ensure_json_serializable v = .error e) :
    MetricStore.set be k v = (.error e, be) := by
  unfold MetricStore.set MetricStore.validate_value
  rw [h]

theorem C5_validate_rejects_witness :
    ensure_json_serializable (.handle "raw")
        = .error "TypeError: not JSON serializable"
    ∧ MetricStore.set [] ⟨"r", "t", "a", "s", "m", "k"⟩ (.handle "raw")
        = (.error "TypeError: not JSON serializable", []) :=
  ⟨rfl, C5_validate_rejects [] ⟨"r", "t", "a", "s", "m", "k"⟩ (.handle "raw")
    "TypeError: not JSON serializable" rfl⟩

/-- C4 (code bug): constructing a Domain with the invalid domain-type string
"not_a_type" propagates the enum's own ValueError, whose message names the
offending value but NOT its type: Python's by-value lookup
`MetricDomainTypes("not_a_type")` raises `ValueError`, while the surrounding
`except (TypeError, KeyError)` clause — whose body would raise the
descriptive message naming both the value and its type — never catches it,
so that message is dead code for string inputs.  No partial Domain is
produced (the error propagates before construction). -/
theorem C4_enum_error_path :
    Domain.build "r" (.str "not_a_type") none none
        = .error (.enumValueError "not_a_type")
    ∧ (DomainInitError.enumValueError "not_a_type").namesOffendingValue = true
    ∧ (DomainInitError.enumValueError "not_a_type").namesOffendingType = false
    ∧ DomainInitError.message (.enumValueError "not_a_type")
        = "'not_a_type' is not a valid MetricDomainTypes" :=
  ⟨rfl, rfl, rfl, rfl⟩

/-- C6 (counterexample): "COLUMN" is a case-sensitive exact match to the enum
NAME `MetricDomainTypes.COLUMN`, yet constructing a Domain with the string
"COLUMN" raises (by-value lookup only accepts enum VALUES) while
construction with the corresponding enum instance succeeds, so the claim
fails for name-strings. -/
theorem C6_name_string_fails :
    Domain.build "r" (.str "COLUMN") none none
        = .error (.enumValueError "COLUMN")
    ∧ Domain.build "r" (.enumMetric .COLUMN) none none
        = .ok (Domain.mk "r" .COLUMN (.dict []) []) := by
  constructor
  · rfl
  · simp [Domain.build, parseDomainType, convertKw_dict_eq]
    rfl

/-- C6 (amended): for every enum member, constructing a Domain with the
member's VALUE string (case-sensitive) and constructing it with the enum
instance, all other arguments equal, produce the same Domain and hence
identical canonical JSON. -/
theorem C6_value_string_matches_enum (t : MetricDomainTypes) (rn : String)
    (kw : Option (List (String × PyVal)))
    (det : Option (List (String × PyVal))) :
    Domain.build rn (.str t.value) kw det
        = Domain.build rn (.enumMetric t) kw det
    ∧ (Domain.build rn (.str t.value) kw det).map Domain.toJsonDict
        = (Domain.build rn (.enumMetric t) kw det).map Domain.toJsonDict := by
  cases t <;> exact ⟨rfl, rfl⟩

theorem pyEq_of_eq {a b : PyVal} (h : a = b) : pyEq a b = true := by
  subst h
  simp [pyEq]

/-- C2: for two Domain operands, `__eq__` holds exactly when their canonical
JSON representations match as Python dicts (order-insensitive), or when the
falsy-stripped fallback comparison of one side's canonical JSON against the
other's raw mapping contents matches; the third disjunct of the source (repr
string comparison) is subsumed by the first. -/
theorem C2_eq_iff (a b : Domain) (ja jb : PyVal)
    (ha : a.toJsonDict = .ok ja) (hb : b.toJsonDict = .ok jb) :
    a.eqPy b = .ok true
      ↔ (pyEq ja jb = true
          ∨ pyEq (filterFalsyTop ja) (filterFalsyTop b.asDict) = true) := by
  unfold Domain.eqPy
  rw [ha, hb]
  constructor
  · intro h
    have h2 : (pyEq ja jb
        || (pyEq (filterFalsyTop ja) (filterFalsyTop b.asDict) || (ja == jb)))
          = true := by
      simpa [Bool.or_assoc] using h
    rcases Bool.or_eq_true_iff.mp h2 with h3 | h3
    · exact Or.inl h3
    · rcases Bool.or_eq_true_iff.mp h3 with h4 | h4
      · exact Or.inr h4
      · exact Or.inl (pyEq_of_eq (eq_of_beq h4))
  · intro h
    rcases h with h3 | h3
    · simp [h3]
    · simp [h3]

theorem C2_eq_iff_witness :
    (Domain.mk "r1" .COLUMN (.dict [("column", .str "age")]) []).toJsonDict
        = .ok (.dict [("rule_name", .str "r1"), ("domain_type", .str "column"),
            ("domain_kwargs", .dict [("column", .str "age")])])
    ∧ ((Domain.mk "r1" .COLUMN (.dict [("column", .str "age")]) []).eqPy
          (Domain.mk "r1" .COLUMN (.dict [("column", .str "age")]) []) = .ok true
        ↔ (pyEq (.dict [("rule_name", .str "r1"),
              ("domain_type", .str "column"),
              ("domain_kwargs", .dict [("column", .str "age")])])
            (.dict [("rule_name", .str "r1"), ("domain_type", .str "column"),
              ("domain_kwargs", .dict [("column", .str "age")])]) = true
          ∨ pyEq (filterFalsyTop (.dict [("rule_name", .str "r1"),
              ("domain_type", .str "column"),
              ("domain_kwargs", .dict [("column", .str "age")])]))
            (filterFalsyTop
              (Domain.mk "r1" .COLUMN (.dict [("column", .str "age")]) []).asDict)
              = true)) :=
  ⟨rfl, C2_eq_iff (Domain.mk "r1" .COLUMN (.dict [("column", .str "age")]) [])
    (Domain.mk "r1" .COLUMN (.dict [("column", .str "age")]) []) _ _ rfl rfl⟩

/-- C8: for every Domain, `to_json_dict` returns the fixed dict of shape
`{rule_name, domain_type, domain_kwargs, details}` with falsy (empty/null)
top-level fields stripped by `filter_properties_dict`. -/
theorem C8_json_shape (d : Domain) (j : PyVal) (h : d.toJsonDict = .ok j) :
    ∃ kwargsJson detailsList, j = filterFalsyTop (.dict
      [("rule_name", .str d.rule_name),
       ("domain_type", .str d.domain_type.value),
       ("domain_kwargs", kwargsJson),
       ("details", .dict detailsList)]) := by
  unfold Domain.toJsonDict at h
  cases h1 : Domain.processDetails d.details with
  | error e => rw [h1] at h; simp at h
  | ok dl =>
    rw [h1] at h
    cases h2 : convert_to_json_serializable d.domain_kwargs with
    | error e => rw [h2] at h; simp at h
    | ok kw =>
      rw [h2] at h
      exact ⟨kw, dl, by simpa using h.symm⟩

theorem C8_json_shape_witness :
    Domain.build "r1" (.str "column") (some [("column", .str "age")]) none
        = .ok (Domain.mk "r1" .COLUMN (.dict [("column", .str "age")]) [])
    ∧ (Domain.mk "r1" .COLUMN (.dict [("column", .str "age")]) []).toJsonDict
        = .ok (.dict [("rule_name", .str "r1"), ("domain_type", .str "column"),
            ("domain_kwargs", .dict [("column", .str "age")])])
    ∧ ∃ kwargsJson detailsList,
        (PyVal.dict [("rule_name", .str "r1"), ("domain_type", .str "column"),
          ("domain_kwargs", .dict [("column", .str "age")])])
          = filterFalsyTop (.dict
              [("rule_name", .str "r1"), ("domain_type", .str "column"),
               ("domain_kwargs", kwargsJson), ("details", .dict detailsList)]) := by
  refine ⟨?_, rfl, ?_⟩
  · simp [Domain.build, parseDomainType, MetricDomainTypes.fromValue,
      convertKw_dict_eq]
    rfl
  · exact C8_json_shape
      (Domain.mk "r1" .COLUMN (.dict [("column", .str "age")]) [])
      (.dict [("rule_name", .str "r1"), ("domain_type", .str "column"),
        ("domain_kwargs", .dict [("column", .str "age")])]) rfl

theorem pySet_of_not_hasKey {m : List (String × PyVal)} {k : String}
    (h : pyHasKey m k = false) (v : PyVal) : pySet m k v = m ++ [(k, v)] := by
  induction m with
  | nil => rfl
  | cons kv rest ih =>
    by_cases hk : kv.1 = k
    · simp [pyHasKey, pyLookup, hk] at h
    · have h2 : pyHasKey rest k = false := by
        simpa [pyHasKey, pyLookup, hk] using h
      simp [pySet, hk, ih h2]

theorem pySet_self {m : List (String × PyVal)} {k : String} {v : PyVal}
    (h : pyLookup m k = some v) : pySet m k v = m := by
  induction m with
  | nil => simp [pyLookup] at h
  | cons kv rest ih =>
    obtain ⟨k0, v0⟩ := kv
    by_cases hk : k0 = k
    · subst hk
      have h2 : v0 = v := by simpa [pyLookup] using h
      subst h2
      simp [pySet]
    · simp only [pyLookup, hk, if_neg hk] at h
      simp [pySet, hk, ih h]

/-- The resolver pointing `class_name = "DatabaseStoreBackend"` at a
database-backed class (models `load_class` on the default module). -/
def resolveDB : BackendResolver := fun _ cls =>
  .ok ⟨cls == .str "DatabaseStoreBackend"⟩

/-- C10 (counterexample): a MetricStore constructed over a database-backend
configuration lacking "table_name"/"key_columns" mutates the caller's
store_backend mapping by inserting the defaults, so construction does have a
side effect on the caller's mapping. -/
theorem C10_mutates_caller_config :
    MetricStore.initStoreBackend resolveDB
        (some [("class_name", .str "DatabaseStoreBackend")])
      = .ok (some [("class_name", .str "DatabaseStoreBackend"),
          ("table_name", .str "ge_metrics"),
          ("key_columns", keyColumnsDefault)])
    ∧ MetricStore.initStoreBackend resolveDB
          (some [("class_name", .str "DatabaseStoreBackend")])
        ≠ .ok (some [("class_name", .str "DatabaseStoreBackend")]) := by
  refine ⟨rfl, ?_⟩
  intro hc
  have h1 : (Except.ok (some [("class_name", PyVal.str "DatabaseStoreBackend"),
        ("table_name", PyVal.str "ge_metrics"),
        ("key_columns", keyColumnsDefault)])
      : Except String (Option (List (String × PyVal))))
    = .ok (some [("class_name", .str "DatabaseStoreBackend")]) := hc
  simp [keyColumnsDefault] at h1

/-- C10 (amended): construction leaves the caller's store_backend mapping
unchanged unless the resolved backend class is a database backend with the
injected keys missing: MetricStore construction returns the mapping
unchanged iff the class is not a database backend or both "table_name" and
"key_columns" are already present, and EvaluationParameterStore (which
delegates to MetricStore) leaves a non-database-backend mapping unchanged as
well. -/
theorem C10_unchanged_characterization (resolve : BackendResolver)
    (m : List (String × PyVal)) (cls : StoreBackendClass)
    (hres : resolve
        ((pyLookup m "module_name").getD
          (.str "great_expectations.data_context.store"))
        ((pyLookup m "class_name").getD (.str "InMemoryStoreBackend"))
      = .ok cls) :
    (MetricStore.initStoreBackend resolve (some m) = .ok (some m)
      ↔ (cls.isDatabaseBackend = false
          ∨ (pyHasKey m "table_name" = true
              ∧ pyHasKey m "key_columns" = true)))
    ∧ (cls.isDatabaseBackend = false
        → EvaluationParameterStore.initStoreBackend resolve (some m)
          = .ok (some m)) := by
  have hlen : ∀ (l : List (String × PyVal)) (kv : String × PyVal),
      l ++ [kv] ≠ l := by
    intro l kv hc
    have := congrArg List.length hc
    simp at this
  have hineq : ∀ (l : List (String × PyVal)) (k : String) (v : PyVal),
      pyHasKey l k = false → pySet l k v ≠ l := by
    intro l k v h hc
    rw [pySet_of_not_hasKey h] at hc
    exact hlen l (k, v) hc
  have hineq2 : ∀ (l : List (String × PyVal)) (k1 k2 : String)
      (v1 v2 : PyVal), pyHasKey l k1 = false →
      pyHasKey (pySet l k1 v1) k2 = false →
      pySet (pySet l k1 v1) k2 v2 ≠ l := by
    intro l k1 k2 v1 v2 h1 h2 hc
    rw [pySet_of_not_hasKey h2, pySet_of_not_hasKey h1] at hc
    have := congrArg List.length hc
    simp at this
  constructor
  · simp only [MetricStore.initStoreBackend]
    rw [hres]
    cases hdb : cls.isDatabaseBackend with
    | false => simp [hdb]
    | true =>
      cases ht : pyHasKey m "table_name" with
      | true =>
        cases hkc : pyHasKey m "key_columns" with
        | true => simp [hdb, ht, hkc]
        | false =>
          simp [hdb, ht, hkc,
            hineq m "key_columns" ((pyLookup m "key_columns").getD
              keyColumnsDefault) hkc]
      | false =>
        cases hkc2 : pyHasKey (pySet m "table_name"
            ((pyLookup m "table_name").getD (.str "ge_metrics")))
            "key_columns" with
        | true =>
          simp [hdb, ht, hkc2,
            hineq m "table_name" ((pyLookup m "table_name").getD
              (.str "ge_metrics")) ht]
        | false =>
          simp [hdb, ht, hkc2,
            hineq2 m "table_name" "key_columns"
              ((pyLookup m "table_name").getD (.str "ge_metrics"))
              ((pyLookup (pySet m "table_name"
                ((pyLookup m "table_name").getD (.str "ge_metrics")))
                "key_columns").getD keyColumnsDefault) ht hkc2]
  · intro hdb
    simp only [EvaluationParameterStore.initStoreBackend]
    rw [hres]
    simp only [hdb, Bool.false_eq_true, if_false]
    simp only [MetricStore.initStoreBackend]
    rw [hres]
    simp [hdb]

theorem C10_unchanged_characterization_witness :
    resolveDB
        ((pyLookup [("class_name", PyVal.str "InMemoryStoreBackend")]
          "module_name").getD
          (.str "great_expectations.data_context.store"))
        ((pyLookup [("class_name", PyVal.str "InMemoryStoreBackend")]
          "class_name").getD (.str "InMemoryStoreBackend"))
      = .ok ⟨false⟩
    ∧ ((MetricStore.initStoreBackend resolveDB
          (some [("class_name", .str "InMemoryStoreBackend")])
        = .ok (some [("class_name", .str "InMemoryStoreBackend")])
        ↔ ((StoreBackendClass.mk false).isDatabaseBackend = false
            ∨ (pyHasKey [("class_name", PyVal.str "InMemoryStoreBackend")]
                "table_name" = true
              ∧ pyHasKey [("class_name", PyVal.str "InMemoryStoreBackend")]
                "key_columns" = true)))
      ∧ ((StoreBackendClass.mk false).isDatabaseBackend = false
          → EvaluationParameterStore.initStoreBackend resolveDB
              (some [("class_name", .str "InMemoryStoreBackend")])
            = .ok (some [("class_name", .str "InMemoryStoreBackend")]))) :=
  ⟨rfl, C10_unchanged_characterization resolveDB
    [("class_name", .str "InMemoryStoreBackend")] ⟨false⟩ rfl⟩

theorem tuple_to_key_to_tuple (k : ValidationMetricIdentifier) :
    ValidationMetricIdentifier.tuple_to_key k.to_tuple = some k := by
  obtain ⟨a, b, c, d, e, f⟩ := k
  rfl

/-- C9: an Evaluation Parameter Store holding exactly two keys under a run
(with distinct URNs) returns from `get_bind_params` a mapping with exactly
two entries, each keyed by the key's evaluation-parameter URN and holding
the value stored under that key. -/
theorem C9_get_bind_params (run_id : RunIdentifier)
    (k1 k2 : ValidationMetricIdentifier) (v1 v2 : PyVal)
    (h1r : k1.run_name = run_id.run_name)
    (h1t : k1.run_time = run_id.run_time)
    (h2r : k2.run_name = run_id.run_name)
    (h2t : k2.run_time = run_id.run_time)
    (hurn : k1.to_evaluation_parameter_urn ≠ k2.to_evaluation_parameter_urn) :
    EvaluationParameterStore.get_bind_params
        [(k1.to_tuple, some (.dict [("value", v1)])),
         (k2.to_tuple, some (.dict [("value", v2)]))] run_id
      = .ok [(k1.to_evaluation_parameter_urn, some v1),
             (k2.to_evaluation_parameter_urn, some v2)] := by
  have hkeys : k1 ≠ k2 := fun hc => hurn (hc ▸ rfl)
  have htup : ¬ (k1.to_tuple = k2.to_tuple) := by
    intro hc
    apply hkeys
    obtain ⟨a1, b1, c1, d1, e1, f1⟩ := k1
    obtain ⟨a2, b2, c2, d2, e2, f2⟩ := k2
    simp [ValidationMetricIdentifier.to_tuple] at hc
    obtain ⟨ha, hb, hc2, hd, he, hf⟩ := hc
    simp_all
  have hlk : backendListKeys
      [(k1.to_tuple, some (.dict [("value", v1)])),
       (k2.to_tuple, some (.dict [("value", v2)]))] run_id.to_tuple
    = [k1.to_tuple, k2.to_tuple] := by
    simp [backendListKeys, RunIdentifier.to_tuple,
      ValidationMetricIdentifier.to_tuple, tupleMatchesRun,
      h1r, h1t, h2r, h2t]
  unfold EvaluationParameterStore.get_bind_params
  rw [hlk]
  simp [bindParamsLoop, tuple_to_key_to_tuple, MetricStore.get, backendGet,
    MetricStore.deserialize, pyLookup, paramsSet, htup, hurn]

theorem C9_get_bind_params_witness :
    (⟨"run1", "20210101", "asset", "suite", "metric_a", "kw1"⟩
        : ValidationMetricIdentifier).to_evaluation_parameter_urn
      ≠ (⟨"run1", "20210101", "asset", "suite", "metric_b", "kw1"⟩
        : ValidationMetricIdentifier).to_evaluation_parameter_urn
    ∧ EvaluationParameterStore.get_bind_params
        [((⟨"run1", "20210101", "asset", "suite", "metric_a", "kw1"⟩
            : ValidationMetricIdentifier).to_tuple,
          some (.dict [("value", .int 3)])),
         ((⟨"run1", "20210101", "asset", "suite", "metric_b", "kw1"⟩
            : ValidationMetricIdentifier).to_tuple,
          some (.dict [("value", .int 4)]))] ⟨"run1", "20210101"⟩
      = .ok [((⟨"run1", "20210101", "asset", "suite", "metric_a", "kw1"⟩
            : ValidationMetricIdentifier).to_evaluation_parameter_urn,
          some (.int 3)),
         ((⟨"run1", "20210101", "asset", "suite", "metric_b", "kw1"⟩
            : ValidationMetricIdentifier).to_evaluation_parameter_urn,
          some (.int 4))] :=
  ⟨by decide,
   C9_get_bind_params ⟨"run1", "20210101"⟩
     ⟨"run1", "20210101", "asset", "suite", "metric_a", "kw1"⟩
     ⟨"run1", "20210101", "asset", "suite", "metric_b", "kw1"⟩
     (.int 3) (.int 4) rfl rfl rfl rfl (by decide)⟩

theorem SemanticDomainTypes.fromValue_value (t : SemanticDomainTypes) :
    SemanticDomainTypes.fromValue t.value = some t := by
  cases t <;> rfl

theorem normalizeSemanticType_str {s : String} {t : SemanticDomainTypes}
    (h : pyLower s = t.value) :
    normalizeSemanticType (.str s) = .ok (.str t.value) := by
  simp only [normalizeSemanticType]
  rw [h, SemanticDomainTypes.fromValue_value]

theorem normalizeSemanticType_enum (t : SemanticDomainTypes) :
    normalizeSemanticType (.enumSemantic t) = .ok (.str t.value) := rfl

/-- The per-entry acceptance condition of the reserved-key normalization: a
string whose lowercasing is the semantic type's value, or the enum
instance itself. -/
def inferredEntryRel (kv : String × PyVal)
    (tv : String × SemanticDomainTypes) : Prop :=
  kv.1 = tv.1
    ∧ ((∃ s, kv.2 = .str s ∧ pyLower s = tv.2.value)
        ∨ kv.2 = .enumSemantic tv.2)

theorem normEntries_forall₂ {m : List (String × PyVal)}
    {targets : List (String × SemanticDomainTypes)}
    (h : List.Forall₂ inferredEntryRel m targets) :
    normalizeInferredEntries m
      = .ok (targets.map fun tv => (tv.1, .str tv.2.value)) := by
  induction h with
  | nil => rfl
  | cons hr hrest ih =>
    rename_i kv tv m' targets'
    obtain ⟨hkey, hval⟩ := hr
    have hnorm : normalizeSemanticType kv.2 = .ok (.str tv.2.value) := by
      rcases hval with ⟨s, hs, hlow⟩ | he
      · rw [hs]; exact normalizeSemanticType_str hlow
      · rw [he]; exact normalizeSemanticType_enum tv.2
    simp [normalizeInferredEntries, hnorm, ih, hkey]

theorem convertEntries_strs (l : List (String × PyVal))
    (h : ∀ kv ∈ l, ∃ s, kv.2 = .str s) : convertEntries l = .ok l := by
  induction l with
  | nil => rfl
  | cons kv rest ih =>
    obtain ⟨k0, v0⟩ := kv
    obtain ⟨s, hs⟩ := h (k0, v0) (by simp)
    simp only at hs
    subst hs
    simp [convertEntries, convert_to_json_serializable,
      ih (fun a ha => h a (by simp [ha]))]

theorem detailEntry_key {kv : String × PyVal} {e : String × PyVal}
    (h : Domain.detailEntry kv = .ok e) : e.1 = kv.1 := by
  unfold Domain.detailEntry at h
  split at h
  · simp at h
  · split at h
    · simp at h
    · simp only [Except.ok.injEq] at h
      rw [← h]

theorem processDetails_lookup (ds dl : List (String × PyVal))
    (m : List (String × PyVal))
    (targets : List (String × SemanticDomainTypes))
    (hp : Domain.processDetails ds = .ok dl)
    (hk : pyLookup ds INFERRED_SEMANTIC_TYPE_KEY = some (.dict m))
    (hf : List.Forall₂ inferredEntryRel m targets) :
    pyLookup dl INFERRED_SEMANTIC_TYPE_KEY
      = some (.dict (targets.map fun tv => (tv.1, .str tv.2.value))) := by
  induction ds generalizing dl with
  | nil => simp [pyLookup] at hk
  | cons kv rest ih =>
    simp only [Domain.processDetails] at hp
    cases he : Domain.detailEntry kv with
    | error e2 => rw [he] at hp; simp at hp
    | ok e =>
      rw [he] at hp
      cases hrest : Domain.processDetails rest with
      | error e2 => rw [hrest] at hp; simp at hp
      | ok rest' =>
        rw [hrest] at hp
        have hdl : e :: rest' = dl := by simpa using hp
        by_cases hk1 : kv.1 = INFERRED_SEMANTIC_TYPE_KEY
        · -- the reserved entry itself
          have hv : kv.2 = .dict m := by
            simpa [pyLookup, hk1] using hk
          have hee : e = (kv.1, .dict (targets.map
              fun tv => (tv.1, .str tv.2.value))) := by
            unfold Domain.detailEntry at he
            rw [hv, hk1] at he
            cases m with
            | nil =>
              cases hf
              simpa [truthy, INFERRED_SEMANTIC_TYPE_KEY,
                convert_to_json_serializable, convertEntries, hk1]
                  using he.symm
            | cons m0 m' =>
              have hni : normalizeInferred (.dict (m0 :: m'))
                  = .ok (.dict (targets.map
                      fun tv => (tv.1, .str tv.2.value))) := by
                simp [normalizeInferred, normEntries_forall₂ hf]
              have hcs : convertEntries (targets.map
                  fun tv => (tv.1, .str tv.2.value))
                  = .ok (targets.map fun tv => (tv.1, .str tv.2.value)) :=
                convertEntries_strs _ (by
                  intro a ha
                  obtain ⟨tv, htv, hae⟩ := List.mem_map.mp ha
                  exact ⟨tv.2.value, by rw [← hae]⟩)
              simpa [truthy, INFERRED_SEMANTIC_TYPE_KEY, hni,
                convert_to_json_serializable, hcs, hk1] using he.symm
          rw [← hdl, hee]
          simp [pyLookup, hk1]
        · have hk2 : pyLookup rest INFERRED_SEMANTIC_TYPE_KEY
              = some (.dict m) := by
            simpa [pyLookup, hk1] using hk
          have hekey : e.1 = kv.1 := detailEntry_key he
          rw [← hdl]
          simp only [pyLookup, hekey, hk1, if_false]
          exact ih rest' hrest hk2

/-- `jsonLookup j k`: subscripting a canonical-JSON dict. -/
def jsonLookup (j : PyVal) (k : String) : Option PyVal :=
  match j with
  | .dict kvs => pyLookup kvs k
  | _ => none

/-- C7: for every Domain whose details hold the reserved
"inferred_semantic_domain_type" key, `to_json_dict` normalizes each
column-to-type entry under that key to the semantic-type enum's string
value, accepting a string case-insensitively or an enum instance. -/
theorem C7_inferred_semantic_normalization (d : Domain) (j : PyVal)
    (m : List (String × PyVal))
    (targets : List (String × SemanticDomainTypes))
    (hj : d.toJsonDict = .ok j)
    (hk : pyLookup d.details INFERRED_SEMANTIC_TYPE_KEY = some (.dict m))
    (hf : List.Forall₂ inferredEntryRel m targets) :
    ∃ dl, jsonLookup j "details" = some (.dict dl)
      ∧ pyLookup dl INFERRED_SEMANTIC_TYPE_KEY
          = some (.dict (targets.map fun tv => (tv.1, .str tv.2.value))) := by
  unfold Domain.toJsonDict at hj
  cases hpd : Domain.processDetails d.details with
  | error e => rw [hpd] at hj; simp at hj
  | ok dl0 =>
    rw [hpd] at hj
    cases hkw : convert_to_json_serializable d.domain_kwargs with
    | error e => rw [hkw] at hj; simp at hj
    | ok kw =>
      rw [hkw] at hj
      have hj2 : j = filterFalsyTop (.dict
          [("rule_name", .str d.rule_name),
           ("domain_type", .str d.domain_type.value),
           ("domain_kwargs", kw),
           ("details", .dict dl0)]) := by simpa using hj.symm
      subst hj2
      have hlook := processDetails_lookup d.details dl0 m targets hpd hk hf
      have htr : truthy (.dict dl0) = true := by
        cases dl0 with
        | nil => simp [pyLookup] at hlook
        | cons a as => simp [truthy]
      refine ⟨dl0, ?_, hlook⟩
      simp only [filterFalsyTop, filter_properties_dict, jsonLookup]
      by_cases h1 : truthy (.str d.rule_name) <;>
        by_cases h2 : truthy (.str d.domain_type.value) <;>
        by_cases h3 : truthy kw <;>
        simp [h1, h2, h3, htr, pyLookup]

theorem C7_inferred_semantic_normalization_witness :
    (Domain.mk "r1" .COLUMN (.dict [])
        [(INFERRED_SEMANTIC_TYPE_KEY,
          .dict [("age", .str "NUMERIC")])]).toJsonDict
      = .ok (.dict [("rule_name", .str "r1"), ("domain_type", .str "column"),
          ("details", .dict [(INFERRED_SEMANTIC_TYPE_KEY,
            .dict [("age", .str "numeric")])])])
    ∧ pyLookup [(INFERRED_SEMANTIC_TYPE_KEY,
          .dict [("age", .str "NUMERIC")])] INFERRED_SEMANTIC_TYPE_KEY
        = some (.dict [("age", .str "NUMERIC")])
    ∧ List.Forall₂ inferredEntryRel [("age", .str "NUMERIC")]
        [("age", SemanticDomainTypes.NUMERIC)]
    ∧ ∃ dl, jsonLookup (.dict [("rule_name", .str "r1"),
          ("domain_type", .str "column"),
          ("details", .dict [(INFERRED_SEMANTIC_TYPE_KEY,
            .dict [("age", .str "numeric")])])]) "details"
          = some (.dict dl)
      ∧ pyLookup dl INFERRED_SEMANTIC_TYPE_KEY
          = some (.dict ([("age", SemanticDomainTypes.NUMERIC)].map
              fun tv => (tv.1, .str tv.2.value))) := by
  refine ⟨rfl, rfl, ?_, ?_⟩
  · exact List.Forall₂.cons ⟨rfl, Or.inl ⟨"NUMERIC", rfl, rfl⟩⟩
      List.Forall₂.nil
  · exact C7_inferred_semantic_normalization
      (Domain.mk "r1" .COLUMN (.dict [])
        [(INFERRED_SEMANTIC_TYPE_KEY, .dict [("age", .str "NUMERIC")])])
      (.dict [("rule_name", .str "r1"), ("domain_type", .str "column"),
        ("details", .dict [(INFERRED_SEMANTIC_TYPE_KEY,
          .dict [("age", .str "numeric")])])])
      [("age", .str "NUMERIC")] [("age", SemanticDomainTypes.NUMERIC)]
      rfl rfl
      (List.Forall₂.cons ⟨rfl, Or.inl ⟨"NUMERIC", rfl, rfl⟩⟩
        List.Forall₂.nil)

theorem canonEntries_congr {l1 l2 : List (String × PyVal)}
    (h : List.Forall₂ (fun a b : String × PyVal =>
        a.1 = b.1 ∧ canon a.2 = canon b.2) l1 l2) :
    canonEntries l1 = canonEntries l2 := by
  induction h with
  | nil => rfl
  | cons hr hrest ih =>
    simp only [canonEntries, ih]
    rw [hr.1, hr.2]

theorem forall₂_filter_truthy {l1 l2 : List (String × PyVal)}
    (h : List.Forall₂ (fun a b : String × PyVal =>
        a.1 = b.1 ∧ canon a.2 = canon b.2) l1 l2) :
    List.Forall₂ (fun a b : String × PyVal =>
        a.1 = b.1 ∧ canon a.2 = canon b.2)
      (l1.filter (fun kv => truthy kv.2))
      (l2.filter (fun kv => truthy kv.2)) := by
  induction h with
  | nil => exact List.Forall₂.nil
  | cons hr hrest ih =>
    rename_i a b l1' l2'
    have ht : truthy a.2 = truthy b.2 := by
      rw [← truthy_canon a.2, hr.2, truthy_canon]
    by_cases hta : truthy a.2
    · have htb : truthy b.2 = true := by rw [← ht]; exact hta
      simp only [List.filter_cons, hta, htb, if_true]
      exact List.Forall₂.cons hr ih
    · have hta2 : truthy a.2 = false := by
        cases hx : truthy a.2
        · rfl
        · exact absurd hx hta
      have htb : truthy b.2 = false := by rw [← ht]; exact hta2
      simpa [List.filter_cons, hta2, htb] using ih

/-- Canonical form of the falsy-stripped top-level dict depends only on the
keys and the canonical forms of the values. -/
theorem canon_filterFalsyTop_congr {l1 l2 : List (String × PyVal)}
    (h : List.Forall₂ (fun a b : String × PyVal =>
        a.1 = b.1 ∧ canon a.2 = canon b.2) l1 l2) :
    canon (filterFalsyTop (.dict l1)) = canon (filterFalsyTop (.dict l2)) := by
  simp only [filterFalsyTop, filter_properties_dict, canon]
  rw [canonEntries_congr (forall₂_filter_truthy h)]

/-- C3: two Domains constructed with semantically identical `domain_kwargs`
(same key-value contents up to insertion order at any nesting level, with
the duplicate-free keys of real Python dicts) and equal remaining arguments
have identical `id` values, compare equal, and have equal hashes. -/
theorem C3_order_insensitive (rn : String) (t : MetricDomainTypes)
    (kw1 kw2 : List (String × PyVal)) (det : Option (List (String × PyVal)))
    (hwf1 : wf (.dict kw1) = true) (hwf2 : wf (.dict kw2) = true)
    (heq : canon (.dict kw1) = canon (.dict kw2))
    (d1 d2 : Domain)
    (h1 : Domain.build rn (.enumMetric t) (some kw1) det = .ok d1)
    (h2 : Domain.build rn (.enumMetric t) (some kw2) det = .ok d2)
    (j1 j2 : PyVal)
    (hj1 : d1.toJsonDict = .ok j1) (hj2 : d2.toJsonDict = .ok j2) :
    d1.id = d2.id ∧ d1.eqPy d2 = .ok true ∧ d1.hashPy = d2.hashPy := by
  have e1 : Domain.mk rn t (convertDomainKwargs (.dict kw1)) (det.getD [])
      = d1 := by
    simpa [Domain.build, parseDomainType] using h1
  have e2 : Domain.mk rn t (convertDomainKwargs (.dict kw2)) (det.getD [])
      = d2 := by
    simpa [Domain.build, parseDomainType] using h2
  subst e1
  subst e2
  have htj1 := hj1
  have htj2 := hj2
  have hkws : canon (convertDomainKwargs (.dict kw1))
      = canon (convertDomainKwargs (.dict kw2)) := by
    rw [convertKw_dict_eq, convertKw_dict_eq,
      canon_deepFilter_comm _ hwf1, canon_deepFilter_comm _ hwf2, heq]
  -- dissect the two to_json_dict computations
  unfold Domain.toJsonDict at hj1 hj2
  simp only at hj1 hj2
  cases hpd : Domain.processDetails (det.getD []) with
  | error e => rw [hpd] at hj1; simp at hj1
  | ok dl =>
    rw [hpd] at hj1 hj2
    cases hcv1 : convert_to_json_serializable
        (convertDomainKwargs (.dict kw1)) with
    | error e => rw [hcv1] at hj1; simp at hj1
    | ok w1 =>
      rw [hcv1] at hj1
      cases hcv2 : convert_to_json_serializable
          (convertDomainKwargs (.dict kw2)) with
      | error e => rw [hcv2] at hj2; simp at hj2
      | ok w2 =>
        rw [hcv2] at hj2
        have hw1 : w1 = convertDomainKwargs (.dict kw1) :=
          convert_ok_eq _ _ hcv1
        have hw2 : w2 = convertDomainKwargs (.dict kw2) :=
          convert_ok_eq _ _ hcv2
        have hje1 : j1 = filterFalsyTop (.dict
            [("rule_name", .str rn), ("domain_type", .str t.value),
             ("domain_kwargs", w1), ("details", .dict dl)]) := by
          simpa using hj1.symm
        have hje2 : j2 = filterFalsyTop (.dict
            [("rule_name", .str rn), ("domain_type", .str t.value),
             ("domain_kwargs", w2), ("details", .dict dl)]) := by
          simpa using hj2.symm
        have hcanon : canon j1 = canon j2 := by
          rw [hje1, hje2]
          apply canon_filterFalsyTop_congr
          refine List.Forall₂.cons ⟨rfl, rfl⟩ ?_
          refine List.Forall₂.cons ⟨rfl, rfl⟩ ?_
          refine List.Forall₂.cons ⟨rfl, ?_⟩ ?_
          · rw [hw1, hw2]; exact hkws
          · exact List.Forall₂.cons ⟨rfl, rfl⟩ List.Forall₂.nil
        have hid : Domain.id
              (Domain.mk rn t (convertDomainKwargs (.dict kw1)) (det.getD []))
            = Domain.id
              (Domain.mk rn t (convertDomainKwargs (.dict kw2))
                (det.getD [])) := by
          unfold Domain.id
          rw [htj1, htj2]
          simp only [IDDict.to_id, hcanon]
        refine ⟨hid, ?_, ?_⟩
        · unfold Domain.eqPy
          rw [htj1, htj2]
          simp [pyEq, hcanon]
        · unfold Domain.hashPy
          rw [hid]

theorem C3_order_insensitive_witness :
    wf (.dict [("b", .int 1),
        ("a", .dict [("y", .int 2), ("x", .int 3)])]) = true
    ∧ wf (.dict [("a", .dict [("x", .int 3), ("y", .int 2)]),
        ("b", .int 1)]) = true
    ∧ canon (.dict [("b", .int 1),
          ("a", .dict [("y", .int 2), ("x", .int 3)])])
        = canon (.dict [("a", .dict [("x", .int 3), ("y", .int 2)]),
          ("b", .int 1)])
    ∧ Domain.build "r" (.enumMetric .COLUMN)
        (some [("b", .int 1), ("a", .dict [("y", .int 2), ("x", .int 3)])])
        none
      = .ok (Domain.mk "r" .COLUMN
          (.dict [("b", .int 1),
            ("a", .dict [("y", .int 2), ("x", .int 3)])]) [])
    ∧ Domain.build "r" (.enumMetric .COLUMN)
        (some [("a", .dict [("x", .int 3), ("y", .int 2)]), ("b", .int 1)])
        none
      = .ok (Domain.mk "r" .COLUMN
          (.dict [("a", .dict [("x", .int 3), ("y", .int 2)]),
            ("b", .int 1)]) [])
    ∧ (Domain.mk "r" .COLUMN
        (.dict [("b", .int 1),
          ("a", .dict [("y", .int 2), ("x", .int 3)])]) []).toJsonDict
      = .ok (.dict [("rule_name", .str "r"), ("domain_type", .str "column"),
          ("domain_kwargs", .dict [("b", .int 1),
            ("a", .dict [("y", .int 2), ("x", .int 3)])])])
    ∧ (Domain.mk "r" .COLUMN
        (.dict [("a", .dict [("x", .int 3), ("y", .int 2)]),
          ("b", .int 1)]) []).toJsonDict
      = .ok (.dict [("rule_name", .str "r"), ("domain_type", .str "column"),
          ("domain_kwargs", .dict [("a", .dict [("x", .int 3),
            ("y", .int 2)]), ("b", .int 1)])])
    ∧ ((Domain.mk "r" .COLUMN
          (.dict [("b", .int 1),
            ("a", .dict [("y", .int 2), ("x", .int 3)])]) []).id
        = (Domain.mk "r" .COLUMN
          (.dict [("a", .dict [("x", .int 3), ("y", .int 2)]),
            ("b", .int 1)]) []).id
      ∧ (Domain.mk "r" .COLUMN
          (.dict [("b", .int 1),
            ("a", .dict [("y", .int 2), ("x", .int 3)])]) []).eqPy
          (Domain.mk "r" .COLUMN
            (.dict [("a", .dict [("x", .int 3), ("y", .int 2)]),
              ("b", .int 1)]) []) = .ok true
      ∧ (Domain.mk "r" .COLUMN
          (.dict [("b", .int 1),
            ("a", .dict [("y", .int 2), ("x", .int 3)])]) []).hashPy
        = (Domain.mk "r" .COLUMN
          (.dict [("a", .dict [("x", .int 3), ("y", .int 2)]),
            ("b", .int 1)]) []).hashPy) := by
  refine ⟨by decide, by decide, rfl, ?_, ?_, rfl, rfl, ?_⟩
  · simp [Domain.build, parseDomainType, convertKw_dict_eq]
    rfl
  · simp [Domain.build, parseDomainType, convertKw_dict_eq]
    rfl
  · exact C3_order_insensitive "r" .COLUMN
      [("b", .int 1), ("a", .dict [("y", .int 2), ("x", .int 3)])]
      [("a", .dict [("x", .int 3), ("y", .int 2)]), ("b", .int 1)]
      none (by decide) (by decide) rfl
      (Domain.mk "r" .COLUMN
        (.dict [("b", .int 1),
          ("a", .dict [("y", .int 2), ("x", .int 3)])]) [])
      (Domain.mk "r" .COLUMN
        (.dict [("a", .dict [("x", .int 3), ("y", .int 2)]),
          ("b", .int 1)]) [])
      (by simp [Domain.build, parseDomainType, convertKw_dict_eq]; rfl)
      (by simp [Domain.build, parseDomainType, convertKw_dict_eq]; rfl)
      (.dict [("rule_name", .str "r"), ("domain_type", .str "column"),
        ("domain_kwargs", .dict [("b", .int 1),
          ("a", .dict [("y", .int 2), ("x", .int 3)])])])
      (.dict [("rule_name", .str "r"), ("domain_type", .str "column"),
        ("domain_kwargs", .dict [("a", .dict [("x", .int 3),
          ("y", .int 2)]), ("b", .int 1)])])
      rfl rfl
